import Mathlib

/-!
Verification of the reboot-count session-log toolkit.

The Python sources replay an append-only JSONL mutation log into a map of
"request" entities, detect compaction ("reboot") boundaries by hashing the
per-request summary text with MD5, tile the request timeline into windows,
and classify timestamps into windows.  This file embeds those functions
shallowly (JSON values as an inductive type, Python `dict`s as association
lists, uncaught Python exceptions as `Except` errors) and proves the claimed
properties.

Numbers are embedded as `Int` (all values the scripts manipulate in the
claims are integers; float-valued JSON is out of scope and noted where it
would matter).
-/

set_option maxRecDepth 100000

namespace RebootCount

/-! ## MD5 (as used by `hashlib.md5(text.encode()).hexdigest()`)

A byte-level implementation over `Nat` with explicit `% 2^32` where 32-bit
overflow matters.  `count_reboots_ground_truth.py` and friends hash summary
texts and keep a prefix of the hex digest. -/

/-- Modulus for 32-bit words. -/
def wordMask : Nat := 4294967296

/-- The 64 MD5 round constants `K[i] = floor(2^32 * |sin(i+1)|)`. -/
def mdK : List Nat := [
  0xd76aa478, 0xe8c7b756, 0x242070db, 0xc1bdceee,
  0xf57c0faf, 0x4787c62a, 0xa8304613, 0xfd469501,
  0x698098d8, 0x8b44f7af, 0xffff5bb1, 0x895cd7be,
  0x6b901122, 0xfd987193, 0xa679438e, 0x49b40821,
  0xf61e2562, 0xc040b340, 0x265e5a51, 0xe9b6c7aa,
  0xd62f105d, 0x02441453, 0xd8a1e681, 0xe7d3fbc8,
  0x21e1cde6, 0xc33707d6, 0xf4d50d87, 0x455a14ed,
  0xa9e3e905, 0xfcefa3f8, 0x676f02d9, 0x8d2a4c8a,
  0xfffa3942, 0x8771f681, 0x6d9d6122, 0xfde5380c,
  0xa4beea44, 0x4bdecfa9, 0xf6bb4b60, 0xbebfbc70,
  0x289b7ec6, 0xeaa127fa, 0xd4ef3085, 0x04881d05,
  0xd9d4d039, 0xe6db99e5, 0x1fa27cf8, 0xc4ac5665,
  0xf4292244, 0x432aff97, 0xab9423a7, 0xfc93a039,
  0x655b59c3, 0x8f0ccc92, 0xffeff47d, 0x85845dd1,
  0x6fa87e4f, 0xfe2ce6e0, 0xa3014314, 0x4e0811a1,
  0xf7537e82, 0xbd3af235, 0x2ad7d2bb, 0xeb86d391]

/-- The 64 MD5 per-round left-rotation amounts. -/
def mdS : List Nat := [
  7, 12, 17, 22, 7, 12, 17, 22, 7, 12, 17, 22, 7, 12, 17, 22,
  5, 9, 14, 20, 5, 9, 14, 20, 5, 9, 14, 20, 5, 9, 14, 20,
  4, 11, 16, 23, 4, 11, 16, 23, 4, 11, 16, 23, 4, 11, 16, 23,
  6, 10, 15, 21, 6, 10, 15, 21, 6, 10, 15, 21, 6, 10, 15, 21]

/-- Left-rotate a 32-bit word by `c` places. -/
def rotl (x c : Nat) : Nat := ((x <<< c) + (x >>> (32 - c))) % wordMask

/-- Bitwise complement within 32 bits. -/
def notW (x : Nat) : Nat := (wordMask - 1) - x

/-- Decode 4 consecutive little-endian bytes of a block as a word. -/
def blockWord (block : List Nat) (g : Nat) : Nat :=
  block.getD (4 * g) 0 + 256 * block.getD (4 * g + 1) 0 +
    65536 * block.getD (4 * g + 2) 0 + 16777216 * block.getD (4 * g + 3) 0

/-- One of the 64 MD5 rounds applied to state `(a, b, c, d)`. -/
def md5Round (block : List Nat) (st : Nat × Nat × Nat × Nat) (i : Nat) :
    Nat × Nat × Nat × Nat :=
  let a := st.1; let b := st.2.1; let c := st.2.2.1; let d := st.2.2.2
  let fg : Nat × Nat :=
    if i < 16 then ((b &&& c) ||| (notW b &&& d), i)
    else if i < 32 then ((d &&& b) ||| (notW d &&& c), (5 * i + 1) % 16)
    else if i < 48 then (b ^^^ c ^^^ d, (3 * i + 5) % 16)
    else (c ^^^ (b ||| notW d), (7 * i) % 16)
  let f := (fg.1 + a + mdK.getD i 0 + blockWord block fg.2) % wordMask
  (d, (b + rotl f (mdS.getD i 0)) % wordMask, b, c)

/-- Process one 64-byte block, updating the running state. -/
def md5Block (st : Nat × Nat × Nat × Nat) (block : List Nat) :
    Nat × Nat × Nat × Nat :=
  let r := (List.range 64).foldl (md5Round block) st
  ((st.1 + r.1) % wordMask, (st.2.1 + r.2.1) % wordMask,
    (st.2.2.1 + r.2.2.1) % wordMask, (st.2.2.2 + r.2.2.2) % wordMask)

/-- Split a byte list into 64-byte chunks (fuel-based so that it reduces
definitionally; `l.length` steps always suffice). -/
def chunks64Go (fuel : Nat) (l : List Nat) : List (List Nat) :=
  match fuel, l with
  | _, [] => []
  | 0, _ => []
  | fuel + 1, l => l.take 64 :: chunks64Go fuel (l.drop 64)

/-- Split a byte list into 64-byte chunks. -/
def chunks64 (l : List Nat) : List (List Nat) := chunks64Go l.length l

/-- Little-endian byte expansion of a number, `n` bytes wide. -/
def leBytes (w : Nat) : Nat → List Nat
  | 0 => []
  | n + 1 => w % 256 :: leBytes (w / 256) n

/-- MD5 padding: `0x80`, zeros to 56 mod 64, then the 64-bit bit length. -/
def md5Pad (msg : List Nat) : List Nat :=
  let padLen := (120 - (msg.length + 1) % 64) % 64
  msg ++ [0x80] ++ List.replicate padLen 0 ++ leBytes (msg.length * 8 % 2 ^ 64) 8

/-- The MD5 state after absorbing a whole message. -/
def md5State (msg : List Nat) : Nat × Nat × Nat × Nat :=
  (chunks64 (md5Pad msg)).foldl md5Block
    (0x67452301, 0xefcdab89, 0x98badcfe, 0x10325476)

/-- The 16 digest bytes (little-endian per state word). -/
def digestBytes (st : Nat × Nat × Nat × Nat) : List Nat :=
  leBytes st.1 4 ++ leBytes st.2.1 4 ++ leBytes st.2.2.1 4 ++ leBytes st.2.2.2 4

/-- Lower-case hex digit for a nibble. -/
def hexChar (n : Nat) : Char := "0123456789abcdef".toList.getD n 'f'

/-- Two hex characters of one byte (`"%02x"`). -/
def byteHex (b : Nat) : List Char := [hexChar (b / 16 % 16), hexChar (b % 16)]

/-- UTF-8 encoding of one character (`str.encode()` is UTF-8). -/
def utf8Char (c : Char) : List Nat :=
  let n := c.toNat
  if n < 0x80 then [n]
  else if n < 0x800 then [0xC0 + n / 64, 0x80 + n % 64]
  else if n < 0x10000 then
    [0xE0 + n / 4096, 0x80 + n / 64 % 64, 0x80 + n % 64]
  else
    [0xF0 + n / 262144, 0x80 + n / 4096 % 64, 0x80 + n / 64 % 64, 0x80 + n % 64]

/-- UTF-8 bytes of a string. -/
def strBytes (s : String) : List Nat := s.data.flatMap utf8Char

/-- The characters of `hashlib.md5(s.encode()).hexdigest()`. -/
def md5HexChars (s : String) : List Char :=
  (digestBytes (md5State (strBytes s))).flatMap byteHex

/-- `hashlib.md5(s.encode()).hexdigest()`. -/
def md5hex (s : String) : String := String.mk (md5HexChars s)

/-- `hashlib.md5(summary.encode()).hexdigest()[:10]`, the content hash used
by the boundary detector in `count_reboots_ground_truth.py` and
`correlate_edits_to_patches.py`. -/
def md5hex10 (s : String) : String := String.mk ((md5HexChars s).take 10)


/-! ## JSON values and Python semantics

`json.loads` of a line yields a JSON value; Python `None` is `JVal.null`.
Uncaught Python exceptions are modelled as `Except PyErr`. -/

/-- A decoded JSON value.  Numbers are `Int` (the logs hold integers). -/
inductive JVal where
  | null
  | bool (b : Bool)
  | num (n : Int)
  | str (s : String)
  | arr (elems : List JVal)
  | obj (fields : List (String × JVal))

/-- An uncaught Python exception aborting the run. -/
inductive PyErr where
  | indexError
  | jsonError
  | attributeError
  | typeError
  | keyError
deriving DecidableEq

/-- Python truthiness of a JSON value. -/
def jTruthy : JVal → Bool
  | .null => false
  | .bool b => b
  | .num n => n != 0
  | .str s => s != ""
  | .arr l => !l.isEmpty
  | .obj l => !l.isEmpty

/-- Lookup in a JSON object (objects built by `json.loads` have unique keys). -/
def objLookup (kvs : List (String × JVal)) (k : String) : Option JVal :=
  match kvs with
  | [] => none
  | (k0, v) :: rest => if k0 = k then some v else objLookup rest k

/-- Python `d.get(k, dflt)` on an object's fields. -/
def objGetD (kvs : List (String × JVal)) (k : String) (dflt : JVal) : JVal :=
  (objLookup kvs k).getD dflt

/-- Python `d[k] = v`: replace the binding in place, else append. -/
def objSet (kvs : List (String × JVal)) (k : String) (v : JVal) :
    List (String × JVal) :=
  match kvs with
  | [] => [(k, v)]
  | (k0, v0) :: rest => if k0 = k then (k0, v) :: rest else (k0, v0) :: objSet rest k v

/-- The `request_data` dict: request index → request value.  Indices are
`Int` because a patch may reference any integer index. -/
abbrev RMap := List (Int × JVal)

/-- Dict lookup on the request map. -/
def rlookup (m : RMap) (k : Int) : Option JVal :=
  match m with
  | [] => none
  | (k0, v) :: rest => if k0 = k then some v else rlookup rest k

/-- Dict assignment on the request map. -/
def rset (m : RMap) (k : Int) (v : JVal) : RMap :=
  match m with
  | [] => [(k, v)]
  | (k0, v0) :: rest => if k0 = k then (k0, v) :: rest else (k0, v0) :: rset rest k v

/-- `sorted(request_data.keys())`. -/
def sortedKeys (m : RMap) : List Int := List.insertionSort (· ≤ ·) (m.map Prod.fst)

/-- Python `x == n` for an int literal `n` (note `True == 1` in Python). -/
def pyEqInt (j : JVal) (n : Int) : Bool :=
  match j with
  | .num m => m == n
  | .bool b => (if b then (1 : Int) else 0) == n
  | _ => false

/-- Python `x == s` for a str literal. -/
def pyEqStr (j : JVal) (s : String) : Bool :=
  match j with
  | .str t => t == s
  | _ => false

/-- Python `isinstance(x, int)` with the int value (bools are ints). -/
def pyIntVal : JVal → Option Int
  | .num n => some n
  | .bool b => some (if b then 1 else 0)
  | _ => none

/-- Python iteration (`enumerate`, `for`) over a JSON value: lists yield
their elements, strings their characters, dicts their keys; iterating
anything else raises `TypeError`. -/
def pyIter : JVal → Except PyErr (List JVal)
  | .arr l => .ok l
  | .str s => .ok (s.data.map fun c => .str (String.mk [c]))
  | .obj kvs => .ok (kvs.map fun kv => .str kv.1)
  | _ => .error .typeError

/-- Python `str()` of a JSON value.  Composite values are rendered only as
placeholders: no claim exercises `str()` of a list/dict (the record `kind`
fields scanned below are strings in the log). -/
def pyStr : JVal → String
  | .null => "None"
  | .bool b => if b then "True" else "False"
  | .num n => toString n
  | .str s => s
  | .arr _ => "<list>"
  | .obj _ => "<dict>"

/-- Whether the first list is a prefix of the second. -/
def charsPrefixOf : List Char → List Char → Bool
  | [], _ => true
  | _ :: _, [] => false
  | a :: ta, b :: tb => a == b && charsPrefixOf ta tb

/-- Python `needle in hay` for strings: contiguous substring containment. -/
def strContains (needle hay : List Char) : Bool :=
  match hay with
  | [] => needle.isEmpty
  | h :: rest => charsPrefixOf needle (h :: rest) || strContains needle rest

/-- One line of the JSONL log: whitespace-only, undecodable, or a decoded
JSON value. -/
inductive LogLine where
  | blank
  | bad
  | val (j : JVal)

/-! ## The ground-truth loader (`count_reboots_ground_truth.load_and_resolve`) -/

/-- First-line (snapshot) handling shared verbatim by
`count_reboots_ground_truth.load_and_resolve` and
`agent_manifest.load_requests`:
`reqs_raw = snap.get("v", {}).get("requests", [])` followed by
`{i: deepcopy(r) for i, r in enumerate(reqs_raw) if r is not None}`.
Returns the initial map and `len(reqs_raw)` (the latter is
`agent_manifest`'s `next_idx`).  A non-dict snapshot line or a non-dict
`"v"` raises `AttributeError`. -/
def initFromSnap (snap : JVal) : Except PyErr (RMap × Int) :=
  match snap with
  | .obj kvs =>
    match objGetD kvs "v" (.obj []) with
    | .obj vkvs =>
      match pyIter (objGetD vkvs "requests" (.arr [])) with
      | .ok elems =>
          .ok (elems.enum.filterMap fun p =>
            match p.2 with
            | .null => none
            | r => some ((p.1 : Int), r), (elems.length : Int))
      | .error e => .error e
    | _ => .error .attributeError
  | _ => .error .attributeError

/-- Read `kind = obj.get("kind")`, `keys = obj.get("k", [])`,
`val = obj.get("v")` from a decoded line; a non-dict line raises
`AttributeError` (only `json.JSONDecodeError` is caught in the loops). -/
def patchFields (j : JVal) : Except PyErr (JVal × JVal × JVal) :=
  match j with
  | .obj kvs =>
      .ok (objGetD kvs "kind" .null, objGetD kvs "k" (.arr []), objGetD kvs "v" .null)
  | _ => .error .attributeError

/-- Evaluate `len(keys) >= 3 and keys[0] == "requests" and
isinstance(keys[1], int)` and extract `(keys[1], keys[2], keys[3:])`.
`none` means the guard is false and the record is skipped.  A `len()` on a
non-sized value raises `TypeError`; indexing a (str-keyed) JSON dict with
`0` raises `KeyError`. -/
def reqPath (keys : JVal) : Except PyErr (Option (Int × JVal × List JVal)) :=
  match keys with
  | .arr (k0 :: k1 :: k2 :: rest) =>
      if pyEqStr k0 "requests" then
        match pyIntVal k1 with
        | some i => .ok (some (i, k2, rest))
        | none => .ok none
      else .ok none
  | .arr _ => .ok none
  | .str s => if s.length ≥ 3 then .ok none else .ok none
  | .obj kvs => if kvs.length ≥ 3 then .error .keyError else .ok none
  | _ => .error .typeError

/-- Apply one post-snapshot line exactly as the patch loop of
`count_reboots_ground_truth.load_and_resolve` (lines 57-81): blank and
undecodable lines are skipped (no count is kept), `kind` must be 1 or 2,
the path must be `["requests", int, field, ...]`; a missing target request
is stub-created; `kind == 1` sets `field = keys[2]` (whatever the path
depth); `kind == 2` with `field == "response"` extends the existing
response list in place.  Non-string field keys and item assignment on
non-dict requests are modelled as `TypeError` (Python would accept an int
key on a dict; no log record or claim exercises that). -/
def stepGT (m : RMap) (line : LogLine) : Except PyErr RMap :=
  match line with
  | .blank => .ok m
  | .bad => .ok m
  | .val j => do
    let (kind, keys, v) ← patchFields j
    if !(pyEqInt kind 1 || pyEqInt kind 2) then
      .ok m
    else do
      match ← reqPath keys with
      | none => .ok m
      | some (reqIdx, k2, _) => do
        let m := match rlookup m reqIdx with
          | none => rset m reqIdx (.obj [])
          | some _ => m
        let req := (rlookup m reqIdx).getD .null
        if pyEqInt kind 1 then
          match req, k2 with
          | .obj kvs, .str field => .ok (rset m reqIdx (.obj (objSet kvs field v)))
          | .obj _, _ => .error .typeError
          | _, _ => .error .typeError
        else if pyEqStr k2 "response" then
          match req with
          | .obj kvs =>
            let existing := objGetD kvs "response" (.arr [])
            match v with
            | .arr vl =>
              match existing with
              | .arr ex =>
                  .ok (rset m reqIdx (.obj (objSet kvs "response" (.arr (ex ++ vl)))))
              | _ => .error .attributeError
            | _ => .ok m
          | _ => .error .attributeError
        else .ok m

/-- Replay the post-snapshot lines in order, propagating any uncaught
exception. -/
def replayGT (m : RMap) : List LogLine → Except PyErr RMap
  | [] => .ok m
  | l :: rest =>
    match stepGT m l with
    | .ok m1 => replayGT m1 rest
    | .error e => .error e

/-- `count_reboots_ground_truth.load_and_resolve`: `json.loads(lines[0])`
aborts on an empty log (`IndexError`) or an undecodable first line
(uncaught `json.JSONDecodeError`); the first line is consumed as the
snapshot whatever its `kind`, and the remaining lines are replayed. -/
def loadAndResolveGT (lines : List LogLine) : Except PyErr RMap :=
  match lines with
  | [] => .error .indexError
  | .blank :: _ => .error .jsonError
  | .bad :: _ => .error .jsonError
  | .val snap :: rest => do
    let (m, _) ← initFromSnap snap
    replayGT m rest

/-! ## Boundary detection (`count_reboots_ground_truth.count_reboots`) -/

/-- Membership in `COMPLETED_MARKERS`. -/
def isCompletedMarker (s : String) : Bool :=
  s == "Summarized conversation history" || s == "Compacted conversation"

/-- The scan of `get_compaction_marker` over the response parts: a part
must be a dict, its `kind`'s `str()` must contain `"progressTask"`, and its
content (or the content dict's `"value"`) must be a completed marker. -/
def markerScan : List JVal → Option String
  | [] => none
  | p :: rest =>
    match p with
    | .obj kvs =>
      let kindStr := pyStr (objGetD kvs "kind" (.str ""))
      if strContains "progressTask".toList kindStr.toList then
        let content := objGetD kvs "content" (.obj [])
        let content := match content with
          | .obj ckvs => objGetD ckvs "value" (.str "")
          | c => c
        match content with
        | .str s => if isCompletedMarker s then some s else markerScan rest
        | _ => markerScan rest
      else markerScan rest
    | _ => markerScan rest

/-- `get_compaction_marker(req)`: iterate `(req or {}).get("response", [])`
looking for a completed-compaction marker. -/
def getCompactionMarker (req : JVal) : Except PyErr (Option String) := do
  let reqD := if jTruthy req then req else .obj []
  let kvs ← match reqD with
    | .obj kvs => .ok kvs
    | _ => .error .attributeError
  let parts ← pyIter (objGetD kvs "response" (.arr []))
  .ok (markerScan parts)

/-- `get_summary_text(req)`: `result.metadata.summary.text` with an
isinstance-dict guard at each level; returns Python `None` (`JVal.null`)
when any level is missing or not a dict. -/
def getSummaryText (req : JVal) : Except PyErr JVal := do
  let reqD := if jTruthy req then req else .obj []
  let kvs ← match reqD with
    | .obj kvs => .ok kvs
    | _ => .error .attributeError
  match objGetD kvs "result" (.obj []) with
  | .obj rkvs =>
    match objGetD rkvs "metadata" (.obj []) with
    | .obj mkvs =>
      match objGetD mkvs "summary" (.obj []) with
      | .obj skvs => .ok (objGetD skvs "text" .null)
      | _ => .ok .null
    | _ => .ok .null
  | _ => .ok .null

/-- Collect `(idx, marker, summary)` for every request (in sorted index
order) whose response holds a completed-compaction marker. -/
def compactionEventsGo (m : RMap) : List Int → Except PyErr (List (Int × String × JVal))
  | [] => .ok []
  | i :: rest => do
    let req := (rlookup m i).getD .null
    match ← getCompactionMarker req with
    | some mk =>
      if mk = "" then compactionEventsGo m rest
      else do
        let s ← getSummaryText req
        let tl ← compactionEventsGo m rest
        .ok ((i, mk, s) :: tl)
    | none => compactionEventsGo m rest

/-- The `compaction_events` list of `count_reboots`. -/
def compactionEvents (m : RMap) : Except PyErr (List (Int × String × JVal)) :=
  compactionEventsGo m (sortedKeys m)

/-- The summary value (`JVal.null` = Python `None` when absent) of each
completed-compaction event, in request-index order. -/
def summariesResolved (m : RMap) : Except PyErr (List JVal) :=
  (compactionEvents m).map (List.map fun e => e.2.2)

/-- Hash of one event's summary:
`hashlib.md5(summary.encode()).hexdigest()[:10]` when a summary string is
present, the sentinel `"NO_SUMMARY"` when the summary is `None`;
`.encode()` on any other value raises `AttributeError`. -/
def eventHash : JVal → Except PyErr String
  | .null => .ok "NO_SUMMARY"
  | .str s => .ok (md5hex10 s)
  | _ => .error .attributeError

/-- The dedup walk of `count_reboots`: `is_new = (h != prev_hash)`, with
`prev_hash := h` after **every** event (also on duplicates). -/
def dedupFlagsGo (prev : Option String) : List String → List Bool
  | [] => []
  | h :: rest => decide (some h ≠ prev) :: dedupFlagsGo (some h) rest

/-- Emission flags for a hash sequence, initial `prev_hash = None`. -/
def dedupFlags (hs : List String) : List Bool := dedupFlagsGo none hs

/-- Hashes of the events' summaries in order (the per-event hash
computation of the `count_reboots` loop). -/
def hashesE : List (Int × String × JVal) → Except PyErr (List String)
  | [] => .ok []
  | e :: rest => do
    let h ← eventHash e.2.2
    let tl ← hashesE rest
    .ok (h :: tl)

/-- Hashes straight from a list of summary values. -/
def hashesOfSummaries : List JVal → Except PyErr (List String)
  | [] => .ok []
  | s :: rest => do
    let h ← eventHash s
    let tl ← hashesOfSummaries rest
    .ok (h :: tl)

/-- `TRUE REBOOT COUNT (unique summary transitions)`: the number of events
flagged as new. -/
def trueRebootCount (m : RMap) : Except PyErr Nat := do
  let ev ← compactionEvents m
  let hs ← hashesE ev
  .ok ((dedupFlags hs).count true)

/-- Modelled from the spec: emit a boundary only if the hash differs from
the globally-preceding **emitted** hash; the remembered hash advances only
on emission (the spec's wording for the dedup rule). -/
def specDedupGo (lastEmitted : Option String) : List String → List Bool
  | [] => []
  | h :: rest =>
    let f := decide (some h ≠ lastEmitted)
    f :: specDedupGo (if f then some h else lastEmitted) rest

/-- Spec-side emission flags, no boundary emitted yet at the start. -/
def specDedupFlags (hs : List String) : List Bool := specDedupGo none hs

/-! ## The agent_manifest loader (`agent_manifest.load_requests`)

This duplicate additionally handles the top-level bulk-append
(`keys == ["requests"]`) and deep (`len(keys) >= 4`) patches, and tracks
`next_idx`.  The state carries two ghost event trails (they never influence
the data): each stub creation records whether the referenced index was at or
above `next_idx`, and each bulk-append assignment records whether the
assigned index already existed in the map. -/

/-- Replay state of `load_requests`: the dict, `next_idx`, and the ghost
event trails. -/
structure AMState where
  data : RMap
  nextIdx : Int
  stubEvents : List (Int × Bool)
  bulkEvents : List (Int × Bool)

/-- `for r in val: if isinstance(r, dict): req_data[next_idx] = r;
next_idx += 1` (non-dict entries are skipped without consuming an index). -/
def bulkAppend (st : AMState) : List JVal → AMState
  | [] => st
  | r :: rest =>
    match r with
    | .obj kvs =>
        bulkAppend
          { st with
            data := rset st.data st.nextIdx (.obj kvs)
            nextIdx := st.nextIdx + 1
            bulkEvents :=
              st.bulkEvents ++ [(st.nextIdx, (rlookup st.data st.nextIdx).isSome)] }
          rest
    | _ => bulkAppend st rest

/-- The deep-patch descent (lines 306-313): `setdefault` each segment
(missing segments become `{}`), leave everything untouched from the first
existing non-dict on, and assign the last segment when the walk stayed in
dicts.  This is the net effect of the in-place mutation. -/
def walkSet (cur : JVal) (sks : List String) (v : JVal) : JVal :=
  match cur, sks with
  | cur, [] => cur
  | .obj kvs, [last] => .obj (objSet kvs last v)
  | .obj kvs, sk :: rest =>
    match objLookup kvs sk with
    | some sub => .obj (objSet kvs sk (walkSet sub rest v))
    | none => .obj (kvs ++ [(sk, walkSet (.obj []) rest v)])
  | cur, _ => cur

/-- Segment list of a deep path; non-string segments are not modelled
(Python would accept any hashable; the logs use field-name strings). -/
def sksOf : List JVal → Option (List String)
  | [] => some []
  | .str s :: rest => (sksOf rest).map fun tl => s :: tl
  | _ => none

/-- The mutation a non-bulk record makes to one (already stub-ensured)
request value: `some` new request value, `none` for no change, or the
uncaught exception.  `kind == 1` with a 3-segment path sets the field,
with a deeper path runs the `setdefault` descent; `kind == 2` with
`field == "response"` extends the response list (the `.get` happens before
the `isinstance(val, list)` test, so a non-dict request raises even when
the value is not a list). -/
def patchReq (req kind k2 : JVal) (restKeys : List JVal) (v : JVal) :
    Except PyErr (Option JVal) :=
  if pyEqInt kind 1 then
    match restKeys with
    | [] =>
      match req with
      | .obj kvs =>
        match k2 with
        | .str field => .ok (some (.obj (objSet kvs field v)))
        | _ => .error .typeError
      | _ => .error .typeError
    | _ :: _ =>
      match req with
      | .obj kvs =>
        match k2 with
        | .str field =>
          match sksOf restKeys with
          | some sks => .ok (some (walkSet (.obj kvs) (field :: sks) v))
          | none => .error .typeError
        | _ => .error .typeError
      | _ => .error .attributeError
  else if pyEqStr k2 "response" then
    match req with
    | .obj kvs =>
      let existing := objGetD kvs "response" (.arr [])
      match v with
      | .arr vl =>
        match existing with
        | .arr ex => .ok (some (.obj (objSet kvs "response" (.arr (ex ++ vl)))))
        | _ => .error .attributeError
      | _ => .ok none
    | _ => .error .attributeError
  else .ok none

/-- The non-bulk part of the patch loop of `agent_manifest.load_requests`
(lines 283-317): kind check, path guard, stub creation (recorded in the
ghost trail with a flag telling whether the index was at or above
`next_idx`), then the per-request mutation of `patchReq`. -/
def notBulkAM (st : AMState) (kind keys v : JVal) : Except PyErr AMState := do
  if !(pyEqInt kind 1 || pyEqInt kind 2) then
    .ok st
  else do
    match ← reqPath keys with
    | none => .ok st
    | some (reqIdx, k2, restKeys) => do
      let st1 := match rlookup st.data reqIdx with
        | none =>
          { st with
            data := rset st.data reqIdx (.obj [])
            stubEvents := st.stubEvents ++ [(reqIdx, decide (st.nextIdx ≤ reqIdx))] }
        | some _ => st
      let req := (rlookup st1.data reqIdx).getD .null
      match ← patchReq req kind k2 restKeys v with
      | some w => .ok { st1 with data := rset st1.data reqIdx w }
      | none => .ok st1

/-- The bulk-append guard of `load_requests`:
`kind == 2 and keys == ["requests"] and isinstance(val, list)`, yielding
the list of new raw requests when it fires. -/
def isBulkRec (kind keys v : JVal) : Option (List JVal) :=
  match keys, v with
  | .arr [k0], .arr vl =>
      if pyEqInt kind 2 && pyEqStr k0 "requests" then some vl else none
  | _, _ => none

/-- Apply one post-snapshot line of `agent_manifest.load_requests`: the
bulk-append guard is tested first, then the common path. -/
def stepAM (st : AMState) (line : LogLine) : Except PyErr AMState :=
  match line with
  | .blank => .ok st
  | .bad => .ok st
  | .val j => do
    let (kind, keys, v) ← patchFields j
    match isBulkRec kind keys v with
    | some vl => .ok (bulkAppend st vl)
    | none => notBulkAM st kind keys v

/-- Replay the post-snapshot lines, propagating uncaught exceptions. -/
def replayAM (st : AMState) : List LogLine → Except PyErr AMState
  | [] => .ok st
  | l :: rest =>
    match stepAM st l with
    | .ok st1 => replayAM st1 rest
    | .error e => .error e

/-- `agent_manifest.load_requests` up to the final list construction:
snapshot init with `next_idx = len(raw_reqs)`, then the patch loop. -/
def loadAM (lines : List LogLine) : Except PyErr AMState :=
  match lines with
  | [] => .error .indexError
  | .blank :: _ => .error .jsonError
  | .bad :: _ => .error .jsonError
  | .val snap :: rest => do
    let (m, n) ← initFromSnap snap
    replayAM { data := m, nextIdx := n, stubEvents := [], bulkEvents := [] } rest

/-- The returned `requests` list (lines 319-325) as `(idx, raw)` pairs
(`Request(idx, raw)` keeps `idx` as the `.idx` attribute): iterate sorted
keys and keep only truthy request values (`if raw:`). -/
def amResultList (st : AMState) : List (Int × JVal) :=
  (sortedKeys st.data).filterMap fun i =>
    match rlookup st.data i with
    | some r => if jTruthy r then some (i, r) else none
    | none => none

/-- `agent_manifest.load_requests`, start to finish. -/
def loadRequestsAMList (lines : List LogLine) : Except PyErr (List (Int × JVal)) :=
  (loadAM lines).map amResultList

/-- Replay invariant for the index-assignment claims: every present key is
below `next_idx`, bulk-assignment events are flagged fresh and their
indices strictly increase and stay below `next_idx`, and the key set has
no duplicates.  (It holds as long as no stub has been created at or above
`next_idx`.) -/
def amInv (st : AMState) : Prop :=
  (∀ k, (rlookup st.data k).isSome → k < st.nextIdx) ∧
  List.Pairwise (· < ·) (st.bulkEvents.map Prod.fst) ∧
  (∀ b ∈ st.bulkEvents.map Prod.fst, b < st.nextIdx) ∧
  (∀ e ∈ st.bulkEvents, e.2 = false) ∧
  (st.data.map Prod.fst).Nodup

/-! ## Reboot windows (`agent_manifest.compute_patch_windows`) -/

/-- The fields of a `Request` object that window computation reads:
`Request.__init__` sets `is_reboot` from the completed-marker scan,
`summary_hash` from the md5-8 of a non-empty summary text (else `None`),
and `timestamp` from the raw record. -/
structure RequestAM where
  is_reboot : Bool
  summary_hash : Option String
  timestamp : Option Int

/-- Python truthiness of `req.summary_hash`. -/
def truthyHash : Option String → Bool
  | some s => s != ""
  | none => false

/-- The dedup loop of `compute_patch_windows` (lines 343-348): positions
(in the requests list) of reboots with a truthy summary hash differing
from the previously recorded one; `prev_hash` advances only on emission. -/
def rebootIndicesGo (i : Nat) (prev : Option String) : List RequestAM → List Nat
  | [] => []
  | r :: rest =>
    if r.is_reboot && truthyHash r.summary_hash && decide (r.summary_hash ≠ prev)
    then i :: rebootIndicesGo (i + 1) r.summary_hash rest
    else rebootIndicesGo (i + 1) prev rest

/-- `reboot_indices` for a requests list. -/
def rebootIndices (reqs : List RequestAM) : List Nat := rebootIndicesGo 0 none reqs

/-- One window of `compute_patch_windows`. -/
structure PatchWindow where
  patch : Nat
  req_start : Nat
  req_end : Nat
  start_ts : Option Int
  end_ts : Option Int
  requests : List RequestAM

/-- The window construction (lines 355-368): `starts = [0] + [ri + 1]`,
`ends = reboot_indices + [len(requests) - 1]`, zipped and numbered.  With
`Nat` subtraction the empty-requests case differs from Python, where
`requests[-1]` raises `IndexError`; every claim below assumes a non-empty
requests list. -/
def buildWindows (ris : List Nat) (reqs : List RequestAM) : List PatchWindow :=
  let starts := 0 :: ris.map (· + 1)
  let ends := ris ++ [reqs.length - 1]
  (starts.zip ends).enum.map fun p =>
    { patch := p.1
      req_start := p.2.1
      req_end := p.2.2
      start_ts := match reqs.get? p.2.1 with
        | some r => r.timestamp
        | none => none
      end_ts := match reqs.get? p.2.2 with
        | some r => r.timestamp
        | none => none
      requests := (reqs.drop p.2.1).take (p.2.2 + 1 - p.2.1) }

/-- `compute_patch_windows(requests)`. -/
def computePatchWindows (reqs : List RequestAM) : List PatchWindow :=
  buildWindows (rebootIndices reqs) reqs

/-- The `(start, end)` pairs of the built windows, with a generalized first
start (the zipped `starts`/`ends` lists, exposed for recursion). -/
def winPairsFrom (s : Nat) (ris : List Nat) (n : Nat) : List (Nat × Nat) :=
  (s :: ris.map (· + 1)).zip (ris ++ [n - 1])

/-- The request-index range `[start, end]` (inclusive) of a window. -/
def winRange (p : Nat × Nat) : List Nat := List.range' p.1 (p.2 + 1 - p.1)

/-! ## Timestamp windows (`correlate_edits_to_patches`) -/

/-- One deduplicated compaction record of `build_reboot_windows`. -/
structure Compaction where
  patch : Nat
  ts_ms : Option Int
  req_idx : Int
  hash : String

/-- One window of `build_reboot_windows`. -/
structure TsWindow where
  patch : Int
  start_ms : Option Int
  end_ms : Option Int
  hash : Option String

/-- The window-building loop of `build_reboot_windows` (lines 169-183):
window `i` runs from compaction `i`'s timestamp to the **next**
compaction's timestamp (`compactions[i+1]["ts_ms"] if i + 1 <
len(compactions) else None`). -/
def compWins : List Compaction → List TsWindow
  | [] => []
  | [c] => [{ patch := (c.patch : Int), start_ms := c.ts_ms,
              end_ms := none, hash := some c.hash }]
  | c :: c2 :: rest =>
      { patch := (c.patch : Int), start_ms := c.ts_ms,
        end_ms := c2.ts_ms, hash := some c.hash } :: compWins (c2 :: rest)

/-- `build_reboot_windows`' window list for a compaction list: the numbered
windows with the patch-0 window (start `None`, end = first compaction's
timestamp; lines 185-191) prepended. -/
def windowsOfCompactions (cs : List Compaction) : List TsWindow :=
  { patch := 0, start_ms := none,
    end_ms := cs.head?.bind fun c => c.ts_ms, hash := none } :: compWins cs

/-- Compaction records with the sequential numbering the dedup loop assigns
(`"patch": len(compactions) + 1`), starting at `k`. -/
def mkCompactionsFrom (k : Nat) : List (Option Int) → List Compaction
  | [] => []
  | t :: rest =>
      { patch := k, ts_ms := t, req_idx := 0, hash := "" } :: mkCompactionsFrom (k + 1) rest

/-- The compaction list for boundary timestamps `tss` (patches 1, 2, …). -/
def mkCompactions (tss : List (Option Int)) : List Compaction := mkCompactionsFrom 1 tss

/-- The `ts_to_patch` window list for boundaries at the given (known)
timestamps. -/
def tsWindowsOf (tss : List Int) : List TsWindow :=
  windowsOfCompactions (mkCompactions (tss.map some))

/-- The number of boundary timestamps at or before `t` (`ts_ms >= start`). -/
def countLE (tss : List Int) (t : Int) : Nat :=
  (tss.filter fun b => decide (b ≤ t)).length

/-- The scan of `ts_to_patch` over `reversed(windows)` (lines 203-211). -/
def tsScan (t : Int) : List TsWindow → Int
  | [] => -1
  | w :: rest =>
    match w.start_ms with
    | none =>
      if (match w.end_ms with | none => true | some e => decide (t < e))
      then 0 else tsScan t rest
    | some s =>
      if decide (s ≤ t) && (match w.end_ms with | none => true | some e => decide (t < e))
      then w.patch else tsScan t rest

/-- `ts_to_patch(ts_ms, windows)`: `-1` (unknown) for a missing timestamp,
else the first matching window scanning from the last one backwards. -/
def tsToPatch (ts : Option Int) (windows : List TsWindow) : Int :=
  match ts with
  | none => -1
  | some t => tsScan t windows.reverse

/-! ## The terminal_archaeology loader (`terminal_archaeology.load_requests`)

This duplicate reads `k = d.get("k", d.get("kind"))` and applies every
`["requests", int, field]` path with **set** semantics — also for kind-2
response appends, which the other loaders extend. -/

/-- `max(requests.keys(), default=-1)`. -/
def maxKey (m : RMap) : Int := m.foldl (fun acc p => max acc p.1) (-1)

/-- The `elif` chain of `terminal_archaeology.load_requests` for a non-
snapshot record: bulk extension at `max + 1`, dict-merge for 2-length
paths, plain set for 3-length paths, everything else ignored. -/
def restTA (m : RMap) (k v : JVal) : Except PyErr RMap :=
  match k with
  | .arr kl =>
    if (match kl, v with
        | [k0], .arr _ => pyEqStr k0 "requests"
        | _, _ => false) then
      let vl := match v with | .arr vl => vl | _ => []
      let base := maxKey m + 1
      .ok (vl.enum.foldl
        (fun m2 p => if jTruthy p.2 then rset m2 (base + (p.1 : Int)) p.2 else m2) m)
    else
      match kl with
      | k0 :: k1 :: krest =>
        if pyEqStr k0 "requests" then
          match pyIntVal k1 with
          | some idx =>
            let m := match rlookup m idx with
              | none => rset m idx (.obj [])
              | some _ => m
            let req := (rlookup m idx).getD .null
            match krest, v with
            | [], .obj vkvs =>
              match req with
              | .obj kvs =>
                  .ok (rset m idx (.obj (vkvs.foldl (fun acc kv => objSet acc kv.1 kv.2) kvs)))
              | _ => .error .attributeError
            | [], _ => .ok m
            | [k2], _ =>
              match req, k2 with
              | .obj kvs, .str field => .ok (rset m idx (.obj (objSet kvs field v)))
              | .obj _, _ => .error .typeError
              | _, _ => .error .typeError
            | _ :: _ :: _, _ => .ok m
          | none => .ok m
        else .ok m
      | _ => .ok m
  | _ => .ok m

/-- Apply one line of `terminal_archaeology.load_requests` (lines 55-84):
undecodable and blank lines are skipped wherever they occur, `k == 0` with
a dict value merges a snapshot (at any position in the log), everything
else goes through the `elif` chain. -/
def stepTA (m : RMap) (line : LogLine) : Except PyErr RMap :=
  match line with
  | .blank => .ok m
  | .bad => .ok m
  | .val j => do
    let kvs ← match j with
      | .obj kvs => .ok kvs
      | _ => .error .attributeError
    let k := match objLookup kvs "k" with
      | some kv => kv
      | none => objGetD kvs "kind" .null
    let v := match objLookup kvs "v" with
      | some vv => vv
      | none => objGetD kvs "value" .null
    if pyEqInt k 0 then
      match v with
      | .obj vkvs => do
        let elems ← pyIter (objGetD vkvs "requests" (.arr []))
        .ok (elems.enum.foldl
          (fun m2 p => if jTruthy p.2 then rset m2 (p.1 : Int) p.2 else m2) m)
      | _ => restTA m k v
    else restTA m k v

/-- Replay every line of the log through `stepTA`. -/
def replayTA (m : RMap) : List LogLine → Except PyErr RMap
  | [] => .ok m
  | l :: rest =>
    match stepTA m l with
    | .ok m1 => replayTA m1 rest
    | .error e => .error e

/-- `terminal_archaeology.load_requests`: fold every line (there is no
special first-line handling here) and return
`[requests[i] for i in sorted(requests.keys())]`. -/
def loadRequestsTA (lines : List LogLine) : Except PyErr (List JVal) := do
  let m ← replayTA [] lines
  .ok ((sortedKeys m).filterMap fun i => rlookup m i)

/-! ## Small observers and test fixtures -/

/-- Whether a JSON value is an object. -/
def jIsObj : JVal → Bool
  | .obj _ => true
  | _ => false

/-- Whether a JSON value is an array. -/
def jIsArr : JVal → Bool
  | .arr _ => true
  | _ => false

/-- Modelled from the spec: a valid kind-0 snapshot record — `kind` is `0`
and `v` is a dict holding the initial `requests` array ("Record kind
values: 0 = snapshot (valid only as the first record)", "a Snapshot
(kind 0) containing the initial entity array").  The loaders under `src/`
never perform this check; the definition exists to state that. -/
def isSnapshotRecord (j : JVal) : Bool :=
  match j with
  | .obj kvs =>
    pyEqInt (objGetD kvs "kind" .null) 0 &&
      (match objGetD kvs "v" .null with
       | .obj vkvs =>
         (match objGetD vkvs "requests" (.arr []) with
          | .arr _ => true
          | _ => false)
       | _ => false)
  | _ => false

/-- A kind-2 response-append record
`{"kind": 2, "k": ["requests", i, "response"], "v": vs}`. -/
def appendPatchRec (i : Int) (vs : List JVal) : JVal :=
  .obj [("kind", .num 2),
        ("k", .arr [.str "requests", .num i, .str "response"]),
        ("v", .arr vs)]

/-- The response value of request `i` in a resolved map, if any. -/
def respOf (m : RMap) (i : Int) : Option JVal :=
  match rlookup m i with
  | some (.obj kvs) => objLookup kvs "response"
  | _ => none

/-- A response part carrying a completed-compaction progress marker. -/
def fixMarkerPart : JVal :=
  .obj [("kind", .str "progressTaskSerialized"),
        ("content", .obj [("value", .str "Summarized conversation history")])]

/-- A request with a completed-compaction marker and summary text `s`. -/
def fixReqSummary (s : String) : JVal :=
  .obj [("response", .arr [fixMarkerPart]),
        ("result", .obj [("metadata", .obj [("summary", .obj [("text", .str s)])])])]

/-- A request with a completed-compaction marker and no summary. -/
def fixReqNoSummary : JVal := .obj [("response", .arr [fixMarkerPart])]

/-- A minimal snapshot record with request list `rs`. -/
def fixSnap (rs : List JVal) : JVal :=
  .obj [("kind", .num 0), ("v", .obj [("requests", .arr rs)])]

/-- A kind-1 record setting `requests[i][field] = v`. -/
def fixSet (i : Int) (field : String) (v : JVal) : JVal :=
  .obj [("kind", .num 1),
        ("k", .arr [.str "requests", .num i, .str field]), ("v", v)]

/-- A kind-2 bulk-append record `{"k": ["requests"], "v": rs}`. -/
def fixBulk (rs : List JVal) : JVal :=
  .obj [("kind", .num 2), ("k", .arr [.str "requests"]), ("v", .arr rs)]

/-! # Lemmas and claim theorems -/

/-! ## Monad plumbing -/

lemma except_bind_ok {α β ε : Type} (a : α) (f : α → Except ε β) :
    (Except.ok a : Except ε α) >>= f = f a := rfl

lemma except_bind_error {α β ε : Type} (e : ε) (f : α → Except ε β) :
    (Except.error e : Except ε α) >>= f = Except.error e := rfl

/-! ## Dict basics -/

lemma rlookup_rset_self (m : RMap) (k : Int) (v : JVal) :
    rlookup (rset m k v) k = some v := by
  induction m with
  | nil => simp [rset, rlookup]
  | cons p rest ih =>
    obtain ⟨k0, v0⟩ := p
    by_cases h : k0 = k
    · simp [rset, rlookup, h]
    · simp [rset, rlookup, h, ih]

lemma objLookup_objSet_self (kvs : List (String × JVal)) (k : String) (v : JVal) :
    objLookup (objSet kvs k v) k = some v := by
  induction kvs with
  | nil => simp [objSet, objLookup]
  | cons p rest ih =>
    obtain ⟨k0, v0⟩ := p
    by_cases h : k0 = k
    · simp [objSet, objLookup, h]
    · simp [objSet, objLookup, h, ih]

/-! ## The dedup walk (claims C1, C5) -/

lemma hashesE_eq_summaries (ev : List (Int × String × JVal)) :
    hashesE ev = hashesOfSummaries (ev.map fun e => e.2.2) := by
  induction ev with
  | nil => rfl
  | cons e rest ih => simp [hashesE, hashesOfSummaries, ih]

/-- The count printed by `count_reboots` depends only on the summary
values of the compaction events. -/
lemma trueRebootCount_of_summaries (m : RMap) (sums : List JVal)
    (h : summariesResolved m = .ok sums) :
    trueRebootCount m
      = (hashesOfSummaries sums).map fun hs => (dedupFlags hs).count true := by
  unfold summariesResolved at h
  cases hce : compactionEvents m with
  | error e => rw [hce] at h; simp [Except.map] at h
  | ok ev =>
    rw [hce] at h
    simp only [Except.map, Except.ok.injEq] at h
    subst h
    unfold trueRebootCount
    rw [hce]
    simp only [bind, Except.bind]
    rw [hashesE_eq_summaries]
    cases hashesOfSummaries (ev.map fun e => e.2.2) <;>
      simp [Except.map, Except.bind, bind]

/-- `count_reboots` updates `prev_hash` after every event; the spec's rule
updates it only on emission.  The two walks emit identically. -/
lemma dedupGo_eq_specGo (hs : List String) :
    ∀ prev, dedupFlagsGo prev hs = specDedupGo prev hs := by
  induction hs with
  | nil => intro prev; rfl
  | cons h t ih =>
    intro prev
    simp only [dedupFlagsGo, specDedupGo]
    by_cases hp : prev = some h
    · subst hp
      simp [ih]
    · have hne : some h ≠ prev := fun hc => hp hc.symm
      simp [hne, ih]

/-- C1: three consecutive completion markers whose summaries hash as
`h(a), h(a), h(b)` with `h(a) ≠ h(b)` yield exactly 2 boundary events;
the non-adjacent repeat `a, b, a` yields 3; and in general an event is
emitted iff its content hash differs from the hash of the immediately
preceding **emitted** boundary — the code's walk (`dedupFlags`, comparing
with the previous event's hash) coincides with that rule
(`specDedupFlags`). -/
theorem claim_C1 :
    (∀ (m : RMap) (a b : String), md5hex10 a ≠ md5hex10 b →
      summariesResolved m = .ok [.str a, .str a, .str b] →
      trueRebootCount m = .ok 2) ∧
    (∀ (m : RMap) (a b : String), md5hex10 a ≠ md5hex10 b →
      summariesResolved m = .ok [.str a, .str b, .str a] →
      trueRebootCount m = .ok 3) ∧
    (∀ hs : List String, dedupFlags hs = specDedupFlags hs) := by
  refine ⟨?_, ?_, fun hs => dedupGo_eq_specGo hs none⟩
  · intro m a b hab h
    rw [trueRebootCount_of_summaries m _ h]
    have : hashesOfSummaries [.str a, .str a, .str b]
        = .ok [md5hex10 a, md5hex10 a, md5hex10 b] := rfl
    rw [this]
    have hba : md5hex10 b ≠ md5hex10 a := fun hc => hab hc.symm
    simp [Except.map, dedupFlags, dedupFlagsGo, List.count_cons, hba]
  · intro m a b hab h
    rw [trueRebootCount_of_summaries m _ h]
    have : hashesOfSummaries [.str a, .str b, .str a]
        = .ok [md5hex10 a, md5hex10 b, md5hex10 a] := rfl
    rw [this]
    have hba : md5hex10 b ≠ md5hex10 a := fun hc => hab hc.symm
    simp [Except.map, dedupFlags, dedupFlagsGo, List.count_cons, hab, hba]

/-- Witness for C1 at the concrete summaries "X","X","Y". -/
theorem claim_C1_witness :
    summariesResolved [(0, fixReqSummary "X"), (1, fixReqSummary "X"), (2, fixReqSummary "Y")]
      = .ok [.str "X", .str "X", .str "Y"] ∧
    md5hex10 "X" ≠ md5hex10 "Y" ∧
    trueRebootCount [(0, fixReqSummary "X"), (1, fixReqSummary "X"), (2, fixReqSummary "Y")]
      = .ok 2 :=
  ⟨rfl, by decide, claim_C1.1 _ "X" "Y" (by decide) rfl⟩

/-! ## The no-summary sentinel (claim C5) -/

lemma hexChar_ne_N (n : Nat) : hexChar n ≠ 'N' := by
  unfold hexChar
  rcases lt_or_ge n 16 with h | h
  · interval_cases n <;> decide
  · rw [List.getD_eq_default]
    · decide
    · simpa using h

lemma md5HexChars_head (s : String) :
    ∃ x t, md5HexChars s = hexChar x :: t :=
  ⟨_, _, rfl⟩

/-- The 10-character truncated hex digest is never the sentinel: hex
digests consist of hex digits while the sentinel starts with `'N'`. -/
lemma md5hex10_ne_sentinel (s : String) : md5hex10 s ≠ "NO_SUMMARY" := by
  obtain ⟨x, t, hx⟩ := md5HexChars_head s
  unfold md5hex10
  rw [hx]
  intro hcon
  have hdata : (hexChar x :: t).take 10 = "NO_SUMMARY".data :=
    congrArg String.data hcon
  have hN : "NO_SUMMARY".data = 'N' :: "O_SUMMARY".data := rfl
  rw [hN, List.take_cons (by norm_num)] at hdata
  exact hexChar_ne_N x (List.head_eq_of_cons_eq hdata)

lemma rebootIndicesGo_mem (l : List RequestAM) :
    ∀ i prev x, x ∈ rebootIndicesGo i prev l → i ≤ x ∧ x < i + l.length := by
  induction l with
  | nil => intro i prev x hx; simp [rebootIndicesGo] at hx
  | cons r rest ih =>
    intro i prev x hx
    simp only [rebootIndicesGo] at hx
    by_cases hc : (r.is_reboot && truthyHash r.summary_hash
        && decide (r.summary_hash ≠ prev)) = true
    · rw [if_pos hc] at hx
      rcases List.mem_cons.mp hx with h | h
      · subst h; simp
      · have := ih (i + 1) r.summary_hash x h
        simp only [List.length_cons]
        omega
    · rw [if_neg hc] at hx
      have := ih (i + 1) prev x hx
      simp only [List.length_cons]
      omega

/-- In `agent_manifest.compute_patch_windows` a request whose
`summary_hash` is `None` (no extractable summary text,
`Request.__init__` lines 223-234) never contributes a reboot index:
line 346 requires a truthy `req.summary_hash`. -/
lemma rebootIndicesGo_none_skip (r : RequestAM) (hr : r.summary_hash = none)
    (post : List RequestAM) :
    ∀ (pre : List RequestAM) (i : Nat) (prev : Option String),
      (i + pre.length) ∉ rebootIndicesGo i prev (pre ++ r :: post) := by
  intro pre
  induction pre with
  | nil =>
    intro i prev h
    simp only [List.nil_append, List.length_nil, Nat.add_zero] at h
    simp only [rebootIndicesGo] at h
    have ht : truthyHash r.summary_hash = false := by rw [hr]; rfl
    rw [ht] at h
    simp only [Bool.and_false, Bool.false_and, if_false] at h
    have := rebootIndicesGo_mem post (i + 1) prev i h
    omega
  | cons p rest ih =>
    intro i prev h
    simp only [List.cons_append, List.length_cons] at h
    simp only [rebootIndicesGo] at h
    by_cases hc : (p.is_reboot && truthyHash p.summary_hash
        && decide (p.summary_hash ≠ prev)) = true
    · rw [if_pos hc] at h
      rcases List.mem_cons.mp h with heq | hmem
      · omega
      · have := ih (i + 1) p.summary_hash
        rw [show i + 1 + rest.length = i + (rest.length + 1) from by omega] at this
        exact this hmem
    · rw [if_neg hc] at h
      have := ih (i + 1) prev
      rw [show i + 1 + rest.length = i + (rest.length + 1) from by omega] at this
      exact this h

/-- C5 (corrected): in `count_reboots_ground_truth` the detector uses the
sentinel hash `"NO_SUMMARY"` for markers without extractable summary text;
the sentinel differs from every real content hash; consecutive no-summary
markers collapse into one boundary; a no-summary marker never dedupes
against a preceding real-hash boundary; and a single no-summary marker
still yields a boundary event.  The claim's other cited detector,
`agent_manifest.compute_patch_windows`, uses no sentinel: a request with
no summary hash is dropped outright — its position never appears among
the reboot indices, whatever surrounds it. -/
theorem claim_C5 :
    (∀ s : String, md5hex10 s ≠ "NO_SUMMARY") ∧
    (∀ m : RMap, summariesResolved m = .ok [.null, .null] →
      trueRebootCount m = .ok 1) ∧
    (∀ (m : RMap) (s : String), summariesResolved m = .ok [.str s, .null] →
      trueRebootCount m = .ok 2) ∧
    (∀ m : RMap, summariesResolved m = .ok [.null] →
      trueRebootCount m = .ok 1) ∧
    (∀ (pre post : List RequestAM) (r : RequestAM), r.summary_hash = none →
      pre.length ∉ rebootIndices (pre ++ r :: post)) := by
  refine ⟨md5hex10_ne_sentinel, ?_, ?_, ?_, ?_⟩
  · intro m h
    rw [trueRebootCount_of_summaries m _ h]
    have : hashesOfSummaries [.null, .null] = .ok ["NO_SUMMARY", "NO_SUMMARY"] := rfl
    rw [this]
    simp [Except.map, dedupFlags, dedupFlagsGo, List.count_cons]
  · intro m s h
    rw [trueRebootCount_of_summaries m _ h]
    have : hashesOfSummaries [.str s, .null] = .ok [md5hex10 s, "NO_SUMMARY"] := rfl
    rw [this]
    have hne : ("NO_SUMMARY" : String) ≠ md5hex10 s :=
      fun hc => md5hex10_ne_sentinel s hc.symm
    simp [Except.map, dedupFlags, dedupFlagsGo, List.count_cons, hne]
  · intro m h
    rw [trueRebootCount_of_summaries m _ h]
    have : hashesOfSummaries [.null] = .ok ["NO_SUMMARY"] := rfl
    rw [this]
    simp [Except.map, dedupFlags, dedupFlagsGo, List.count_cons]
  · intro pre post r hr
    have := rebootIndicesGo_none_skip r hr post pre 0 none
    simpa [rebootIndices] using this

/-- Counterexample to C5 as frozen: the cited detector in `agent_manifest`
drops a completed-compaction marker with no extractable summary instead of
emitting a sentinel-hashed boundary event.  A lone no-summary reboot
request yields no reboot index (one full window, not two), and in the
sequence X, no-summary, X the middle marker contributes nothing while the
final X dedupes against the first — one boundary where a sentinel-based
detector would emit three. -/
theorem claim_C5_counterexample :
    rebootIndices [⟨true, none, none⟩] = [] ∧
    (computePatchWindows [⟨true, none, none⟩, ⟨false, none, none⟩]).length = 1 ∧
    rebootIndices
        [⟨true, some "ab", none⟩, ⟨true, none, none⟩, ⟨true, some "ab", none⟩]
      = [0] :=
  ⟨by decide, rfl, by decide⟩

/-- Witness for C5: concrete no-summary marker sequences, and a concrete
dropped no-summary request in the `agent_manifest` detector. -/
theorem claim_C5_witness :
    md5hex10 "X" ≠ "NO_SUMMARY" ∧
    summariesResolved [(0, fixReqNoSummary), (1, fixReqNoSummary)] = .ok [.null, .null] ∧
    trueRebootCount [(0, fixReqNoSummary), (1, fixReqNoSummary)] = .ok 1 ∧
    trueRebootCount [(0, fixReqSummary "X"), (1, fixReqNoSummary)] = .ok 2 ∧
    trueRebootCount [(0, fixReqNoSummary)] = .ok 1 ∧
    (1 : Nat) ∉ rebootIndices [⟨true, some "cd", none⟩, ⟨true, none, none⟩] :=
  ⟨claim_C5.1 "X", rfl, claim_C5.2.1 _ rfl, claim_C5.2.2.1 _ "X" rfl,
   claim_C5.2.2.2.1 _ rfl,
   claim_C5.2.2.2.2 [⟨true, some "cd", none⟩] [] ⟨true, none, none⟩ rfl⟩

/-! ## Replay structure (claims C3, C6, C7, C10) -/

lemma replayGT_append (xs ys : List LogLine) :
    ∀ m, replayGT m (xs ++ ys)
      = match replayGT m xs with
        | .ok m1 => replayGT m1 ys
        | .error e => .error e := by
  induction xs with
  | nil => intro m; simp [replayGT]
  | cons l rest ih =>
    intro m
    simp only [List.cons_append, replayGT]
    cases stepGT m l with
    | ok m1 => exact ih m1
    | error e => rfl

lemma replayGT_skips_bad (xs ys : List LogLine) :
    ∀ m, replayGT m (xs ++ .bad :: ys) = replayGT m (xs ++ ys) := by
  induction xs with
  | nil => intro m; simp [replayGT, stepGT]
  | cons l rest ih =>
    intro m
    simp only [List.cons_append, replayGT]
    cases stepGT m l with
    | ok m1 => exact ih m1
    | error e => rfl

lemma loadGT_append (lines more : List LogLine) (m : RMap)
    (h : loadAndResolveGT lines = .ok m) :
    loadAndResolveGT (lines ++ more) = replayGT m more := by
  cases lines with
  | nil => simp [loadAndResolveGT] at h
  | cons l0 rest =>
    cases l0 with
    | blank => simp [loadAndResolveGT] at h
    | bad => simp [loadAndResolveGT] at h
    | val snap =>
      simp only [loadAndResolveGT, List.cons_append] at h ⊢
      cases hin : initFromSnap snap with
      | error e => rw [hin] at h; simp [bind, Except.bind] at h
      | ok p =>
        rw [hin] at h
        rw [except_bind_ok] at h ⊢
        rw [replayGT_append, h]

/-- Evaluate `stepGT` on a response-append record targeting an existing
request: the outcome depends only on the current `"response"` value. -/
lemma stepGT_appendPatch (m : RMap) (i : Int) (kvs : List (String × JVal))
    (vl : List JVal) (hm : rlookup m i = some (.obj kvs)) :
    stepGT m (.val (appendPatchRec i vl))
      = match objGetD kvs "response" (.arr []) with
        | .arr ex => .ok (rset m i (.obj (objSet kvs "response" (.arr (ex ++ vl)))))
        | _ => .error .attributeError := by
  simp only [stepGT]
  rw [show patchFields (appendPatchRec i vl)
      = .ok (.num 2, .arr [.str "requests", .num i, .str "response"], .arr vl) from rfl]
  rw [except_bind_ok]
  simp only [show (!(pyEqInt (JVal.num 2) 1 || pyEqInt (JVal.num 2) 2)) = false from rfl,
    Bool.false_eq_true, if_false]
  rw [show reqPath (.arr [.str "requests", .num i, .str "response"])
      = .ok (some (i, .str "response", [])) from rfl]
  rw [except_bind_ok]
  simp only [hm, Option.getD_some]
  simp only [show pyEqInt (JVal.num 2) 1 = false from rfl,
    show pyEqStr (JVal.str "response") "response" = true from rfl,
    Bool.false_eq_true, if_false, if_true]

/-- C7 (amended): a post-snapshot line that fails to decode is skipped and
replay continues, leaving **no trace whatsoever** in the state: the
loader's complete output is unchanged by the malformed line.  (No
malformed-record count exists anywhere in the code.) -/
theorem claim_C7 :
    (∀ m : RMap, stepGT m .bad = .ok m) ∧
    (∀ (s0 : LogLine) (pre suf : List LogLine),
      loadAndResolveGT (s0 :: (pre ++ .bad :: suf))
        = loadAndResolveGT (s0 :: (pre ++ suf))) := by
  refine ⟨fun m => rfl, ?_⟩
  intro s0 pre suf
  cases s0 with
  | blank => rfl
  | bad => rfl
  | val snap =>
    simp only [loadAndResolveGT]
    cases initFromSnap snap with
    | ok p => simp [bind, Except.bind, replayGT_skips_bad]
    | error e => rfl

/-- Counterexample for C7 as stated: inserting a malformed line into a
concrete log leaves the loader's entire output (the aggregate result of
the run) bit-for-bit identical, so no malformed-record count is
incremented or surfaced anywhere. -/
theorem claim_C7_counterexample :
    loadAndResolveGT [.val (fixSnap [.obj []]), .bad, .val (fixSet 0 "x" (.num 5))]
      = loadAndResolveGT [.val (fixSnap [.obj []]), .val (fixSet 0 "x" (.num 5))] := rfl

/-- C6 (amended): the loader aborts on an empty log, on a first line that
fails to decode (even a blank first line, with a valid snapshot right
after it), on a first line that decodes to a non-dict, and on a dict first
line whose `"v"` is present but not a dict; but it never checks `kind` on
the first line: any decodable dict with a dict-or-absent `"v"` is accepted
as the snapshot, and the outcome depends only on its `"v"` field. -/
theorem claim_C6 :
    loadAndResolveGT [] = .error .indexError ∧
    (∀ rest, loadAndResolveGT (.blank :: rest) = .error .jsonError) ∧
    (∀ rest, loadAndResolveGT (.bad :: rest) = .error .jsonError) ∧
    (∀ (j : JVal) (rest : List LogLine), jIsObj j = false →
      loadAndResolveGT (.val j :: rest) = .error .attributeError) ∧
    (∀ (kvs : List (String × JVal)) (rest : List LogLine),
      jIsObj (objGetD kvs "v" (.obj [])) = false →
      loadAndResolveGT (.val (.obj kvs) :: rest) = .error .attributeError) ∧
    (∀ (kvs kvs2 : List (String × JVal)) (rest : List LogLine),
      objGetD kvs "v" (.obj []) = objGetD kvs2 "v" (.obj []) →
      loadAndResolveGT (.val (.obj kvs) :: rest)
        = loadAndResolveGT (.val (.obj kvs2) :: rest)) := by
  refine ⟨rfl, fun rest => rfl, fun rest => rfl, ?_, ?_, ?_⟩
  · intro j rest h
    cases j with
    | obj kvs => simp [jIsObj] at h
    | null => rfl
    | bool b => rfl
    | num n => rfl
    | str s => rfl
    | arr l => rfl
  · intro kvs rest h
    cases hv : objGetD kvs "v" (.obj []) with
    | obj vkvs => rw [hv] at h; simp [jIsObj] at h
    | null => simp [loadAndResolveGT, initFromSnap, hv, bind, Except.bind]
    | bool b => simp [loadAndResolveGT, initFromSnap, hv, bind, Except.bind]
    | num n => simp [loadAndResolveGT, initFromSnap, hv, bind, Except.bind]
    | str s => simp [loadAndResolveGT, initFromSnap, hv, bind, Except.bind]
    | arr l => simp [loadAndResolveGT, initFromSnap, hv, bind, Except.bind]
  · intro kvs kvs2 rest h
    have : initFromSnap (.obj kvs) = initFromSnap (.obj kvs2) := by
      simp only [initFromSnap, bind, Except.bind]
      rw [h]
    simp [loadAndResolveGT, this]

/-- Counterexample for C6 as stated: a first line that is a valid-JSON
**kind-1 patch record** — not a kind-0 snapshot — does not abort
processing; the loader silently treats it as a snapshot (its `v` holds no
`requests`, so the initial state is empty) and returns a result. -/
theorem claim_C6_counterexample :
    isSnapshotRecord (fixSet 0 "x" (.obj [])) = false ∧
    loadAndResolveGT [.val (fixSet 0 "x" (.obj []))] = .ok [] :=
  ⟨rfl, rfl⟩

/-- Witness for C6 at concrete inputs. -/
theorem claim_C6_witness :
    loadAndResolveGT [.val (.num 3)] = .error .attributeError ∧
    loadAndResolveGT [.val (.obj [("v", .num 1)])] = .error .attributeError ∧
    loadAndResolveGT [.val (.obj [("kind", .num 7), ("v", .obj [])])]
      = loadAndResolveGT [.val (.obj [("kind", .num 0), ("v", .obj [])])] :=
  ⟨claim_C6.2.2.2.1 (.num 3) [] rfl,
   claim_C6.2.2.2.2.1 [("v", .num 1)] [] rfl,
   claim_C6.2.2.2.2.2 [("kind", .num 7), ("v", .obj [])]
     [("kind", .num 0), ("v", .obj [])] [] rfl⟩

/-- C3 (amended): in the replay engine shared by
`count_reboots_ground_truth`, `agent_manifest` and
`correlate_edits_to_patches`, two consecutive kind-2 response-append
patches on the same request concatenate their values, in patch order, onto
the existing response list — the prior parts stay as a prefix, never
replaced.  (`terminal_archaeology`'s divergent loader instead applies them
with set semantics; see the counterexample.) -/
theorem claim_C3 (m : RMap) (i : Int) (kvs : List (String × JVal))
    (rv v1 v2 : List JVal)
    (hm : rlookup m i = some (.obj kvs))
    (hr : objGetD kvs "response" (.arr []) = .arr rv) :
    (replayGT m [.val (appendPatchRec i v1), .val (appendPatchRec i v2)]).map
        (fun m2 => respOf m2 i)
      = .ok (some (.arr (rv ++ v1 ++ v2))) := by
  have h1 := stepGT_appendPatch m i kvs v1 hm
  rw [hr] at h1
  simp only [replayGT, h1]
  have hm2 : rlookup (rset m i (.obj (objSet kvs "response" (.arr (rv ++ v1))))) i
      = some (.obj (objSet kvs "response" (.arr (rv ++ v1)))) := rlookup_rset_self ..
  have h2 := stepGT_appendPatch _ i _ v2 hm2
  have hresp : objGetD (objSet kvs "response" (.arr (rv ++ v1))) "response" (.arr [])
      = .arr (rv ++ v1) := by
    simp [objGetD, objLookup_objSet_self]
  rw [hresp] at h2
  simp only [h2]
  simp [Except.map, respOf, rlookup_rset_self, objLookup_objSet_self,
    List.append_assoc]

/-- Counterexample for C3 as stated ("a response-append is never applied
with set/replace semantics"): `terminal_archaeology.load_requests` applies
the same kind-2 response-append with **replace** semantics — the prior
response part `"p1"` is discarded, leaving `["p2"]` instead of
`["p1", "p2"]`. -/
theorem claim_C3_counterexample :
    loadRequestsTA [.val (fixSnap [.obj [("response", .arr [.str "p1"])]]),
        .val (appendPatchRec 0 [.str "p2"])]
      = .ok [.obj [("response", .arr [.str "p2"])]] ∧
    JVal.arr [.str "p2"] ≠ .arr [.str "p1", .str "p2"] :=
  ⟨rfl, by simp⟩

/-- Witness for C3 on a concrete request. -/
theorem claim_C3_witness :
    (replayGT [(0, .obj [("response", .arr [.str "p1"])])]
        [.val (appendPatchRec 0 [.str "p2"]), .val (appendPatchRec 0 [.str "p3"])]).map
        (fun m2 => respOf m2 0)
      = .ok (some (.arr [.str "p1", .str "p2", .str "p3"])) :=
  claim_C3 [(0, .obj [("response", .arr [.str "p1"])])] 0
    [("response", .arr [.str "p1"])] [.str "p1"] [.str "p2"] [.str "p3"] rfl rfl

/-- C10: if replay has produced a state in which some request's
`"response"` field holds a non-list value (for instance after a kind-1
patch set it to a string), then appending a kind-2 response-append record
with a list value makes the whole replay abort with the uncaught
`AttributeError` from `existing.extend(val)` — nothing catches it, so
replay of such a log is not total. -/
theorem claim_C10 (lines : List LogLine) (m : RMap) (i : Int)
    (kvs : List (String × JVal)) (vl : List JVal)
    (hl : loadAndResolveGT lines = .ok m)
    (hm : rlookup m i = some (.obj kvs))
    (hr : jIsArr (objGetD kvs "response" (.arr [])) = false) :
    loadAndResolveGT (lines ++ [.val (appendPatchRec i vl)])
      = .error .attributeError := by
  rw [loadGT_append lines _ m hl]
  have h1 := stepGT_appendPatch m i kvs vl hm
  cases hresp : objGetD kvs "response" (.arr []) with
  | arr ex => rw [hresp] at hr; simp [jIsArr] at hr
  | null => rw [hresp] at h1; simp only [replayGT, h1]
  | bool b => rw [hresp] at h1; simp only [replayGT, h1]
  | num n => rw [hresp] at h1; simp only [replayGT, h1]
  | str s => rw [hresp] at h1; simp only [replayGT, h1]
  | obj o => rw [hresp] at h1; simp only [replayGT, h1]

/-! ## Window tiling (claim C2) -/

lemma winPairsFrom_nil (s n : Nat) : winPairsFrom s [] n = [(s, n - 1)] := rfl

lemma winPairsFrom_cons (s r : Nat) (ris : List Nat) (n : Nat) :
    winPairsFrom s (r :: ris) n = (s, r) :: winPairsFrom (r + 1) ris n := rfl

/-- The windows' index ranges concatenate to the full interval `[s, n)`. -/
lemma winPairs_tile (ris : List Nat) :
    ∀ s n, (∀ r ∈ ris, s ≤ r ∧ r < n) → List.Pairwise (· < ·) ris →
      s ≤ n → 0 < n →
      ((winPairsFrom s ris n).map winRange).flatten = List.range' s (n - s) := by
  induction ris with
  | nil =>
    intro s n _ _ hs hn
    rw [winPairsFrom_nil]
    simp only [List.map_cons, List.map_nil, List.flatten_cons, List.flatten_nil,
      List.append_nil, winRange]
    congr 1
    omega
  | cons r rest ih =>
    intro s n hb hp hs hn
    obtain ⟨hsr, hrn⟩ := hb r (List.mem_cons_self _ _)
    obtain ⟨hlt, hp2⟩ := List.pairwise_cons.mp hp
    rw [winPairsFrom_cons]
    simp only [List.map_cons, List.flatten_cons]
    rw [ih (r + 1) n
      (fun x hx => ⟨hlt x hx, (hb x (List.mem_cons_of_mem _ hx)).2⟩) hp2
      (by omega) hn]
    show List.range' s (r + 1 - s) ++ List.range' (r + 1) (n - (r + 1)) = _
    have happ := List.range'_append s (r + 1 - s) (n - (r + 1)) 1
    rw [show s + 1 * (r + 1 - s) = r + 1 by omega] at happ
    rw [happ]
    congr 1
    omega

lemma buildWindows_pairs (ris : List Nat) (reqs : List RequestAM) :
    (buildWindows ris reqs).map (fun w => (w.req_start, w.req_end))
      = winPairsFrom 0 ris reqs.length := by
  unfold buildWindows winPairsFrom
  rw [List.map_map]
  exact List.enum_map_snd _

lemma buildWindows_starts (ris : List Nat) (reqs : List RequestAM) :
    (buildWindows ris reqs).map (fun w => w.req_start) = 0 :: ris.map (· + 1) := by
  unfold buildWindows
  rw [List.map_map]
  show ((0 :: ris.map (· + 1)).zip (ris ++ [reqs.length - 1])).enum.map
    (Prod.fst ∘ Prod.snd) = _
  rw [← List.map_map, List.enum_map_snd, List.map_fst_zip]
  simp

lemma buildWindows_ends (ris : List Nat) (reqs : List RequestAM) :
    (buildWindows ris reqs).map (fun w => w.req_end) = ris ++ [reqs.length - 1] := by
  unfold buildWindows
  rw [List.map_map]
  show ((0 :: ris.map (· + 1)).zip (ris ++ [reqs.length - 1])).enum.map
    (Prod.snd ∘ Prod.snd) = _
  rw [← List.map_map, List.enum_map_snd, List.map_snd_zip]
  simp

lemma rebootIndicesGo_sorted (l : List RequestAM) :
    ∀ i prev, List.Pairwise (· < ·) (rebootIndicesGo i prev l) := by
  induction l with
  | nil => intro i prev; simp [rebootIndicesGo]
  | cons r rest ih =>
    intro i prev
    simp only [rebootIndicesGo]
    split
    · refine List.pairwise_cons.mpr ⟨?_, ih _ _⟩
      intro x hx
      have := rebootIndicesGo_mem rest (i + 1) r.summary_hash x hx
      omega
    · exact ih _ _

/-- C2: for every entity sequence and every sorted in-range boundary set
the built windows' inclusive index ranges concatenate to exactly
`[0, last_index]` (so they are contiguous, ordered, non-overlapping and
cover everything); window starts are `0` followed by each boundary index
plus one; window ends are the boundary indices followed by the last index;
zero boundaries give exactly the one full window; and the windows
`compute_patch_windows` derives from its own reboot scan tile the same
way. -/
theorem claim_C2 :
    (∀ (ris : List Nat) (reqs : List RequestAM),
      List.Pairwise (· < ·) ris → (∀ r ∈ ris, r < reqs.length) → 0 < reqs.length →
      ((buildWindows ris reqs).map
          (fun w => winRange (w.req_start, w.req_end))).flatten
        = List.range reqs.length ∧
      (buildWindows ris reqs).map (fun w => w.req_start) = 0 :: ris.map (· + 1) ∧
      (buildWindows ris reqs).map (fun w => w.req_end) = ris ++ [reqs.length - 1] ∧
      (ris = [] →
        (buildWindows ris reqs).map (fun w => (w.req_start, w.req_end))
          = [(0, reqs.length - 1)])) ∧
    (∀ reqs : List RequestAM, 0 < reqs.length →
      ((computePatchWindows reqs).map
          (fun w => winRange (w.req_start, w.req_end))).flatten
        = List.range reqs.length) := by
  have main : ∀ (ris : List Nat) (reqs : List RequestAM),
      List.Pairwise (· < ·) ris → (∀ r ∈ ris, r < reqs.length) → 0 < reqs.length →
      ((buildWindows ris reqs).map
          (fun w => winRange (w.req_start, w.req_end))).flatten
        = List.range reqs.length := by
    intro ris reqs hp hb hn
    have hcomp : (buildWindows ris reqs).map
        (fun w => winRange (w.req_start, w.req_end))
        = ((buildWindows ris reqs).map (fun w => (w.req_start, w.req_end))).map
            winRange := by
      rw [List.map_map]
      rfl
    rw [hcomp, buildWindows_pairs,
      winPairs_tile ris 0 reqs.length (fun r hr => ⟨Nat.zero_le r, hb r hr⟩) hp
        (Nat.zero_le _) hn,
      Nat.sub_zero, List.range_eq_range']
  refine ⟨fun ris reqs hp hb hn =>
    ⟨main ris reqs hp hb hn, buildWindows_starts ris reqs, buildWindows_ends ris reqs,
      ?_⟩, ?_⟩
  · intro h
    subst h
    rw [buildWindows_pairs, winPairsFrom_nil]
  · intro reqs hn
    exact main (rebootIndices reqs) reqs (rebootIndicesGo_sorted reqs 0 none)
      (fun r hr => by
        have := rebootIndicesGo_mem reqs 0 none r hr
        omega) hn

/-- Witness for C2 with boundaries at indices 1 and 3 over 6 entities. -/
theorem claim_C2_witness :
    ((buildWindows [1, 3] (List.replicate 6 ⟨false, none, none⟩)).map
        (fun w => winRange (w.req_start, w.req_end))).flatten
      = List.range 6 ∧
    (buildWindows [1, 3] (List.replicate 6 ⟨false, none, none⟩)).map
        (fun w => w.req_start) = [0, 2, 4] := by
  have h := claim_C2.1 [1, 3] (List.replicate 6 ⟨false, none, none⟩)
    (by decide) (by decide) (by decide)
  constructor
  · simpa using h.1
  · simpa using h.2.1

/-! ## Timestamp classification (claim C4) -/

lemma tsScan_append_found (xs ys : List TsWindow) (t : Int)
    (h : tsScan t xs ≠ -1) : tsScan t (xs ++ ys) = tsScan t xs := by
  induction xs with
  | nil => simp [tsScan] at h
  | cons w rest ih =>
    cases hs : w.start_ms with
    | none =>
      simp only [tsScan, List.cons_append, hs] at h ⊢
      by_cases hc : (match w.end_ms with | none => true | some e => decide (t < e)) = true
      · simp [hc]
      · simp only [hc, if_false, Bool.false_eq_true] at h ⊢
        exact ih h
    | some s =>
      simp only [tsScan, List.cons_append, hs] at h ⊢
      by_cases hc : (decide (s ≤ t)
          && match w.end_ms with | none => true | some e => decide (t < e)) = true
      · simp [hc]
      · simp only [hc, if_false, Bool.false_eq_true] at h ⊢
        exact ih h

lemma tsScan_append_none (xs ys : List TsWindow) (t : Int)
    (hpos : ∀ w ∈ xs, w.patch ≠ -1)
    (h : tsScan t xs = -1) : tsScan t (xs ++ ys) = tsScan t ys := by
  induction xs with
  | nil => rfl
  | cons w rest ih =>
    have hpos2 : ∀ w ∈ rest, w.patch ≠ -1 :=
      fun w2 hw => hpos w2 (List.mem_cons_of_mem _ hw)
    cases hs : w.start_ms with
    | none =>
      simp only [tsScan, List.cons_append, hs] at h ⊢
      by_cases hc : (match w.end_ms with | none => true | some e => decide (t < e)) = true
      · simp [hc] at h
      · simp only [hc, if_false, Bool.false_eq_true] at h ⊢
        exact ih hpos2 h
    | some s =>
      simp only [tsScan, List.cons_append, hs] at h ⊢
      by_cases hc : (decide (s ≤ t)
          && match w.end_ms with | none => true | some e => decide (t < e)) = true
      · simp only [hc, if_true] at h
        exact absurd h (hpos w (List.mem_cons_self _ _))
      · simp only [hc, if_false, Bool.false_eq_true] at h ⊢
        exact ih hpos2 h

lemma compWins_patch_nonneg :
    ∀ (cs : List Compaction), ∀ w ∈ compWins cs, 0 ≤ w.patch := by
  intro cs
  induction cs with
  | nil => simp [compWins]
  | cons c rest ih =>
    cases rest with
    | nil =>
      simp only [compWins, List.mem_singleton]
      intro w hw
      subst hw
      exact Int.ofNat_nonneg _
    | cons c2 rest2 =>
      simp only [compWins, List.mem_cons]
      intro w hw
      rcases hw with hw | hw
      · subst hw; exact Int.ofNat_nonneg _
      · exact ih w hw

/-- The reversed scan over the numbered compaction windows for strictly
increasing timestamps starting at `a`: `-1` below `a`, else `k` plus the
number of later boundaries at or before `t`. -/
lemma tsScan_mkWins (t : Int) : ∀ (rest : List Int) (a : Int) (k : Nat),
    List.Pairwise (· < ·) (a :: rest) →
    tsScan t ((compWins (mkCompactionsFrom k ((a :: rest).map some))).reverse)
      = if t < a then -1 else (k : Int) + countLE rest t := by
  intro rest
  induction rest with
  | nil =>
    intro a k _
    simp only [List.map_cons, List.map_nil, mkCompactionsFrom, compWins,
      List.reverse_singleton, tsScan, countLE, List.filter_nil, List.length_nil]
    by_cases h : a ≤ t
    · simp [h, show ¬ t < a by omega]
    · simp [h, show t < a by omega]
  | cons b rest2 ih =>
    intro a k hp
    obtain ⟨hbl, hp2⟩ := List.pairwise_cons.mp hp
    have hab : a < b := hbl b (List.mem_cons_self _ _)
    have hstruct : compWins (mkCompactionsFrom k ((a :: b :: rest2).map some))
        = { patch := (k : Int), start_ms := some a, end_ms := some b, hash := some "" }
            :: compWins (mkCompactionsFrom (k + 1) ((b :: rest2).map some)) := rfl
    rw [hstruct, List.reverse_cons]
    by_cases hbt : b ≤ t
    · have hpre := ih b (k + 1) hp2
      rw [if_neg (by omega)] at hpre
      have hne : tsScan t
          ((compWins (mkCompactionsFrom (k + 1) ((b :: rest2).map some))).reverse)
          ≠ -1 := by
        rw [hpre]
        have : (0 : Int) ≤ countLE rest2 t := Int.ofNat_nonneg _
        omega
      rw [tsScan_append_found _ _ _ hne, hpre, if_neg (by omega)]
      simp only [countLE, List.filter_cons, decide_eq_true_eq, hbt, if_true,
        List.length_cons]
      push_cast
      ring
    · have hpre := ih b (k + 1) hp2
      rw [if_pos (by omega)] at hpre
      have hpos : ∀ w ∈ (compWins (mkCompactionsFrom (k + 1)
          ((b :: rest2).map some))).reverse, w.patch ≠ -1 := by
        intro w hw
        have := compWins_patch_nonneg _ w (List.mem_reverse.mp hw)
        omega
      rw [tsScan_append_none _ _ _ hpos hpre]
      have hcount : countLE (b :: rest2) t = 0 := by
        simp only [countLE, List.length_eq_zero]
        rw [List.filter_eq_nil_iff]
        intro x hx
        rcases List.mem_cons.mp hx with h | h
        · subst h; simpa using by omega
        · have := (List.pairwise_cons.mp hp2).1 x h
          simpa using by omega
      by_cases hat : a ≤ t
      · simp only [tsScan, hcount]
        simp [show (decide (a ≤ t) && decide (t < b)) = true by simp [hat]; omega,
          show ¬ t < a by omega]
      · simp only [tsScan, hcount]
        simp [show (decide (a ≤ t) && decide (t < b)) = false by simp [hat],
          show t < a by omega]

lemma tsToPatch_some (t : Int) (ws : List TsWindow) :
    tsToPatch (some t) ws = tsScan t ws.reverse := rfl

/-- `ts_to_patch` on windows built from sorted boundary timestamps counts
the boundaries at or before the timestamp. -/
lemma tsToPatch_count (tss : List Int) (t : Int)
    (hs : List.Pairwise (· < ·) tss) :
    tsToPatch (some t) (tsWindowsOf tss) = (countLE tss t : Int) := by
  rw [tsToPatch_some]
  unfold tsWindowsOf windowsOfCompactions mkCompactions
  cases tss with
  | nil => simp [mkCompactionsFrom, compWins, tsScan, countLE]
  | cons a rest =>
    rw [List.reverse_cons]
    have hM := tsScan_mkWins t rest a 1 hs
    by_cases hat : t < a
    · rw [if_pos hat] at hM
      have hpos : ∀ w ∈ (compWins (mkCompactionsFrom 1
          ((a :: rest).map some))).reverse, w.patch ≠ -1 := by
        intro w hw
        have := compWins_patch_nonneg _ w (List.mem_reverse.mp hw)
        omega
      rw [tsScan_append_none _ _ _ hpos hM]
      have hcount : countLE (a :: rest) t = 0 := by
        simp only [countLE, List.length_eq_zero]
        rw [List.filter_eq_nil_iff]
        intro x hx
        rcases List.mem_cons.mp hx with h | h
        · subst h; simpa using by omega
        · have := (List.pairwise_cons.mp hs).1 x h
          simpa using by omega
      simp [tsScan, hcount, hat, mkCompactionsFrom]
    · rw [if_neg hat] at hM
      have hne : tsScan t
          ((compWins (mkCompactionsFrom 1 ((a :: rest).map some))).reverse)
          ≠ -1 := by
        rw [hM]
        have : (0 : Int) ≤ countLE rest t := Int.ofNat_nonneg _
        omega
      rw [tsScan_append_found _ _ _ hne, hM]
      simp only [countLE, List.filter_cons, decide_eq_true_eq,
        show a ≤ t by omega, if_true, List.length_cons]
      push_cast
      ring

/-- In a sorted boundary list, the element at position `j` is at or before
`t` iff `j` is below the count of boundaries at or before `t`. -/
lemma sorted_get_le_iff (tss : List Int) (t : Int)
    (hs : List.Pairwise (· < ·) tss) :
    ∀ j (hj : j < tss.length), (tss.get ⟨j, hj⟩ ≤ t ↔ j < countLE tss t) := by
  induction tss with
  | nil => intro j hj; simp at hj
  | cons b rest ih =>
    intro j hj
    obtain ⟨hbl, hp2⟩ := List.pairwise_cons.mp hs
    cases j with
    | zero =>
      simp only [List.get]
      by_cases hbt : b ≤ t
      · simp [countLE, List.filter_cons, hbt]
      · have hc0 : countLE (b :: rest) t = 0 := by
          simp only [countLE, List.length_eq_zero]
          rw [List.filter_eq_nil_iff]
          intro x hx
          rcases List.mem_cons.mp hx with h | h
          · subst h; simpa using hbt
          · have := hbl x h
            simpa using by omega
        simp [hc0, hbt]
    | succ j2 =>
      have hj2 : j2 < rest.length := by simpa using Nat.lt_of_succ_lt_succ hj
      have hih := ih hp2 j2 hj2
      simp only [List.get_cons_succ]
      by_cases hbt : b ≤ t
      · have hcs : countLE (b :: rest) t = countLE rest t + 1 := by
          simp [countLE, List.filter_cons, hbt]
        rw [hcs]
        constructor
        · intro hle
          have := hih.mp hle
          omega
        · intro h
          exact hih.mpr (by omega)
      · have hc0 : countLE (b :: rest) t = 0 := by
          simp only [countLE, List.length_eq_zero]
          rw [List.filter_eq_nil_iff]
          intro x hx
          rcases List.mem_cons.mp hx with h | h
          · subst h; simpa using hbt
          · have := hbl x h
            simpa using by omega
        rw [hc0]
        constructor
        · intro hle
          have hgt2 : b < rest.get ⟨j2, hj2⟩ := hbl _ (List.get_mem rest j2 hj2)
          have hnot : ¬ (rest.get ⟨j2, hj2⟩ ≤ t) := by omega
          exact absurd hle hnot
        · intro h
          exact absurd h (by omega)

/-- C4: with boundaries at timestamps `[1000, 2000]` a timestamp of 999
classifies to window 0, exactly 1000 to window 1, 1999 to window 1 and
exactly 2000 to window 2; a missing timestamp yields the explicit
unresolved value `-1`; and in general, for sorted boundary timestamps, a
timestamp maps to window 0 iff it precedes the first boundary and to
window `k ≥ 1` iff it lies in the half-open interval
`[boundary[k-1].ts, boundary[k].ts)`. -/
theorem claim_C4 :
    tsToPatch (some 999) (tsWindowsOf [1000, 2000]) = 0 ∧
    tsToPatch (some 1000) (tsWindowsOf [1000, 2000]) = 1 ∧
    tsToPatch (some 1999) (tsWindowsOf [1000, 2000]) = 1 ∧
    tsToPatch (some 2000) (tsWindowsOf [1000, 2000]) = 2 ∧
    (∀ ws : List TsWindow, tsToPatch none ws = -1) ∧
    (∀ (tss : List Int) (t : Int), List.Pairwise (· < ·) tss →
      (∀ h0 : 0 < tss.length,
        (tsToPatch (some t) (tsWindowsOf tss) = 0 ↔ t < tss.get ⟨0, h0⟩)) ∧
      (∀ k (hk : k < tss.length), 1 ≤ k →
        (tsToPatch (some t) (tsWindowsOf tss) = (k : Int) ↔
          tss.get ⟨k - 1, lt_of_le_of_lt (Nat.sub_le k 1) hk⟩ ≤ t ∧
            t < tss.get ⟨k, hk⟩))) := by
  refine ⟨by decide, by decide, by decide, by decide, fun ws => rfl, ?_⟩
  intro tss t hs
  have hchar := tsToPatch_count tss t hs
  constructor
  · intro h0
    rw [hchar]
    have hg := sorted_get_le_iff tss t hs 0 h0
    rw [Nat.cast_eq_zero]
    constructor
    · intro hc
      by_contra hcon
      have : tss.get ⟨0, h0⟩ ≤ t := by omega
      have := hg.mp this
      omega
    · intro hlt
      by_contra hcon
      have hpos : 0 < countLE tss t := Nat.pos_of_ne_zero hcon
      have := hg.mpr hpos
      omega
  · intro k hk hk1
    rw [hchar]
    have hg1 := sorted_get_le_iff tss t hs (k - 1) (lt_of_le_of_lt (Nat.sub_le k 1) hk)
    have hg2 := sorted_get_le_iff tss t hs k hk
    rw [Nat.cast_inj]
    constructor
    · intro hck
      subst hck
      refine ⟨hg1.mpr (by omega), ?_⟩
      by_contra hcon
      have : tss.get ⟨countLE tss t, hk⟩ ≤ t := by omega
      have := hg2.mp this
      omega
    · rintro ⟨h1, h2⟩
      have hlow : k - 1 < countLE tss t := hg1.mp h1
      have hhigh : ¬ (k < countLE tss t) := fun hc => by
        have := hg2.mpr hc
        omega
      omega

/-- Witness for C4's general clause at `tss = [10, 20]`, `t = 15`. -/
theorem claim_C4_witness :
    tsToPatch (some 15) (tsWindowsOf [10, 20]) = (1 : Int) ↔
      (10 : Int) ≤ 15 ∧ (15 : Int) < 20 := by
  have h := ((claim_C4.2.2.2.2.2 [10, 20] 15 (by decide)).2 1 (by decide) (by decide))
  simpa using h

/-- Witness for C10: a kind-1 patch sets `response` to a string, a later
kind-2 response-append then crashes the replay. -/
theorem claim_C10_witness :
    loadAndResolveGT [.val (fixSnap [.obj []]), .val (fixSet 0 "response" (.str "oops"))]
      = .ok [(0, .obj [("response", .str "oops")])] ∧
    loadAndResolveGT ([.val (fixSnap [.obj []]), .val (fixSet 0 "response" (.str "oops"))]
        ++ [.val (appendPatchRec 0 [.obj []])])
      = .error .attributeError :=
  ⟨rfl, claim_C10 _ [(0, .obj [("response", .str "oops")])] 0
    [("response", .str "oops")] [.obj []] rfl rfl rfl⟩

/-! ## Index assignment and output ordering (claims C8, C9) -/

lemma rlookup_rset_ne (m : RMap) (a k : Int) (v : JVal) (h : k ≠ a) :
    rlookup (rset m a v) k = rlookup m k := by
  induction m with
  | nil =>
    simp only [rset, rlookup]
    rw [if_neg (fun hc => h hc.symm)]
  | cons p rest ih =>
    obtain ⟨k0, v0⟩ := p
    by_cases h0 : k0 = a
    · subst h0
      have hs : rset ((k0, v0) :: rest) k0 v = (k0, v) :: rest := by simp [rset]
      rw [hs]
      have hne : ¬ (k0 = k) := fun hc => h hc.symm
      simp only [rlookup, if_neg hne]
    · simp [rset, rlookup, h0, ih]

lemma rlookup_isSome_rset (m : RMap) (a k : Int) (v : JVal) :
    (rlookup (rset m a v) k).isSome → k = a ∨ (rlookup m k).isSome := by
  intro h
  by_cases hk : k = a
  · exact Or.inl hk
  · right; rwa [rlookup_rset_ne m a k v hk] at h

lemma rlookup_isSome_iff (m : RMap) (k : Int) :
    (rlookup m k).isSome ↔ k ∈ m.map Prod.fst := by
  induction m with
  | nil => simp [rlookup]
  | cons p rest ih =>
    obtain ⟨k0, v0⟩ := p
    by_cases h : k0 = k
    · subst h; simp [rlookup]
    · rw [List.map_cons, List.mem_cons]
      simp only [rlookup, if_neg h]
      rw [ih]
      constructor
      · exact Or.inr
      · rintro (rfl | hm)
        · exact absurd rfl h
        · exact hm

lemma rset_map_fst (m : RMap) (a : Int) (v : JVal) :
    (rset m a v).map Prod.fst
      = if (rlookup m a).isSome then m.map Prod.fst else m.map Prod.fst ++ [a] := by
  induction m with
  | nil => simp [rset, rlookup]
  | cons p rest ih =>
    obtain ⟨k0, v0⟩ := p
    by_cases h : k0 = a
    · subst h; simp [rset, rlookup]
    · simp only [rset, if_neg h, List.map_cons, ih, rlookup]
      split <;> simp

lemma nodup_rset (m : RMap) (a : Int) (v : JVal)
    (h : (m.map Prod.fst).Nodup) : ((rset m a v).map Prod.fst).Nodup := by
  rw [rset_map_fst]
  by_cases hs : (rlookup m a).isSome
  · rwa [if_pos hs]
  · rw [if_neg hs]
    have hmem : a ∉ m.map Prod.fst := fun hc => hs ((rlookup_isSome_iff m a).mpr hc)
    simp [List.nodup_append, h, hmem]

lemma filterMap_fst_sublist {α β γ : Type} (l : List α) (f : α → Option (β × γ))
    (g : α → β) (hf : ∀ a p, f a = some p → p.1 = g a) :
    ((l.filterMap f).map Prod.fst).Sublist (l.map g) := by
  induction l with
  | nil => simp
  | cons a rest ih =>
    cases hfa : f a with
    | none =>
      simp only [List.filterMap_cons, hfa, List.map_cons]
      exact ih.cons _
    | some p =>
      simp only [List.filterMap_cons, hfa, List.map_cons]
      rw [hf a p hfa]
      exact ih.cons₂ _

lemma bulkAppend_stub : ∀ (l : List JVal) (st : AMState),
    (bulkAppend st l).stubEvents = st.stubEvents := by
  intro l
  induction l with
  | nil => intro st; rfl
  | cons r rest ih =>
    intro st
    cases r with
    | obj kvs => exact ih _
    | null => exact ih st
    | bool b => exact ih st
    | num n => exact ih st
    | str s => exact ih st
    | arr a => exact ih st

lemma bulkAppend_nodup : ∀ (l : List JVal) (st : AMState),
    (st.data.map Prod.fst).Nodup → ((bulkAppend st l).data.map Prod.fst).Nodup := by
  intro l
  induction l with
  | nil => intro st h; exact h
  | cons r rest ih =>
    intro st h
    cases r with
    | obj kvs => exact ih _ (nodup_rset _ _ _ h)
    | null => exact ih st h
    | bool b => exact ih st h
    | num n => exact ih st h
    | str s => exact ih st h
    | arr a => exact ih st h

lemma bulkAppend_inv : ∀ (l : List JVal) (st : AMState), amInv st →
    amInv (bulkAppend st l) := by
  intro l
  induction l with
  | nil => intro st h; exact h
  | cons r rest ih =>
    intro st h
    cases r with
    | null => exact ih st h
    | bool b => exact ih st h
    | num n => exact ih st h
    | str s => exact ih st h
    | arr a => exact ih st h
    | obj kvs =>
      obtain ⟨hb, hpw, hlt, hff, hnd⟩ := h
      have hfresh : (rlookup st.data st.nextIdx).isSome = false := by
        by_cases hs : (rlookup st.data st.nextIdx).isSome
        · have := hb _ hs; omega
        · simpa using hs
      refine ih _ ⟨?_, ?_, ?_, ?_, ?_⟩
      · intro k hk
        rcases rlookup_isSome_rset st.data st.nextIdx k _ hk with rfl | hs
        · show st.nextIdx < st.nextIdx + 1
          omega
        · have := hb k hs
          show k < st.nextIdx + 1
          omega
      · show List.Pairwise (· < ·)
          ((st.bulkEvents ++ [(st.nextIdx, (rlookup st.data st.nextIdx).isSome)]).map
            Prod.fst)
        simp only [List.map_append, List.map_cons, List.map_nil]
        rw [List.pairwise_append]
        refine ⟨hpw, List.pairwise_singleton _ _, ?_⟩
        intro a ha b hbm
        simp only [List.mem_singleton] at hbm
        subst hbm
        exact hlt a ha
      · intro b hbm
        simp only [List.map_append, List.map_cons, List.map_nil, List.mem_append,
          List.mem_singleton] at hbm
        show b < st.nextIdx + 1
        rcases hbm with hbm | rfl
        · have := hlt b hbm; omega
        · omega
      · intro e he
        simp only [List.mem_append, List.mem_singleton] at he
        rcases he with he | rfl
        · exact hff e he
        · simpa using hfresh
      · exact nodup_rset _ _ _ hnd

/-- Every successful non-bulk step is: no change, or an optional stub
creation followed by an optional single `rset` at the referenced index. -/
lemma notBulkAM_cases (st : AMState) (kind keys v : JVal) (st2 : AMState)
    (h : notBulkAM st kind keys v = .ok st2) :
    st2 = st ∨
    ∃ (i : Int) (st1 : AMState),
      (((rlookup st.data i).isSome ∧ st1 = st) ∨ (rlookup st.data i = none ∧
        st1 = { st with
                data := rset st.data i (.obj [])
                stubEvents := st.stubEvents ++ [(i, decide (st.nextIdx ≤ i))] })) ∧
      (st2 = st1 ∨ ∃ w, st2 = { st1 with data := rset st1.data i w }) := by
  unfold notBulkAM at h
  by_cases hkind : (!(pyEqInt kind 1 || pyEqInt kind 2)) = true
  · rw [if_pos hkind] at h
    exact Or.inl (Except.ok.inj h).symm
  · rw [if_neg hkind] at h
    cases hrp : reqPath keys with
    | error e => rw [hrp, except_bind_error] at h; exact absurd h (by simp)
    | ok x =>
      rw [hrp, except_bind_ok] at h
      cases x with
      | none => exact Or.inl (Except.ok.inj h).symm
      | some trip =>
        obtain ⟨reqIdx, k2, restKeys⟩ := trip
        right
        refine ⟨reqIdx, ?_⟩
        cases hlk : rlookup st.data reqIdx with
        | some r0 =>
          simp only [hlk, Option.getD_some] at h
          refine ⟨st, Or.inl ⟨rfl, rfl⟩, ?_⟩
          cases hpr : patchReq r0 kind k2 restKeys v with
          | error e => rw [hpr, except_bind_error] at h; exact absurd h (by simp)
          | ok o =>
            rw [hpr, except_bind_ok] at h
            cases o with
            | some w => exact Or.inr ⟨w, (Except.ok.inj h).symm⟩
            | none => exact Or.inl (Except.ok.inj h).symm
        | none =>
          simp only [hlk, rlookup_rset_self, Option.getD_some] at h
          refine ⟨{ st with
              data := rset st.data reqIdx (.obj [])
              stubEvents := st.stubEvents
                ++ [(reqIdx, decide (st.nextIdx ≤ reqIdx))] },
            Or.inr ⟨rfl, rfl⟩, ?_⟩
          cases hpr : patchReq (.obj []) kind k2 restKeys v with
          | error e => rw [hpr, except_bind_error] at h; exact absurd h (by simp)
          | ok o =>
            rw [hpr, except_bind_ok] at h
            cases o with
            | some w => exact Or.inr ⟨w, (Except.ok.inj h).symm⟩
            | none => exact Or.inl (Except.ok.inj h).symm

lemma stepAM_cases (st : AMState) (l : LogLine) (st2 : AMState)
    (h : stepAM st l = .ok st2) :
    st2 = st ∨ (∃ vl, st2 = bulkAppend st vl) ∨
      ∃ kind keys v, notBulkAM st kind keys v = .ok st2 := by
  cases l with
  | blank => exact Or.inl (Except.ok.inj h).symm
  | bad => exact Or.inl (Except.ok.inj h).symm
  | val j =>
    simp only [stepAM] at h
    cases hpf : patchFields j with
    | error e => rw [hpf, except_bind_error] at h; exact absurd h (by simp)
    | ok trip =>
      rw [hpf, except_bind_ok] at h
      obtain ⟨kind, keys, v⟩ := trip
      cases hbr : isBulkRec kind keys v with
      | some vl =>
        rw [hbr] at h
        exact Or.inr (Or.inl ⟨vl, (Except.ok.inj h).symm⟩)
      | none =>
        rw [hbr] at h
        exact Or.inr (Or.inr ⟨kind, keys, v, h⟩)

lemma stepAM_stub_mono (st : AMState) (l : LogLine) (st2 : AMState)
    (h : stepAM st l = .ok st2) : ∀ e ∈ st.stubEvents, e ∈ st2.stubEvents := by
  rcases stepAM_cases st l st2 h with rfl | ⟨vl, rfl⟩ | ⟨kind, keys, v, hnb⟩
  · exact fun e he => he
  · rw [bulkAppend_stub]; exact fun e he => he
  · rcases notBulkAM_cases _ _ _ _ _ hnb with rfl | ⟨i, st1, hst1, hst2⟩
    · exact fun e he => he
    · intro e he
      have h1 : e ∈ st1.stubEvents := by
        rcases hst1 with ⟨_, rfl⟩ | ⟨_, rfl⟩
        · exact he
        · exact List.mem_append_left _ he
      rcases hst2 with rfl | ⟨w, rfl⟩
      · exact h1
      · exact h1

lemma stepAM_inv (st : AMState) (l : LogLine) (st2 : AMState)
    (h : stepAM st l = .ok st2) (hinv : amInv st)
    (hstub : ∀ e ∈ st2.stubEvents, e.2 = false) :
    amInv st2 := by
  rcases stepAM_cases st l st2 h with rfl | ⟨vl, rfl⟩ | ⟨kind, keys, v, hnb⟩
  · exact hinv
  · exact bulkAppend_inv vl st hinv
  · rcases notBulkAM_cases _ _ _ _ _ hnb with rfl | ⟨i, st1, hst1, hst2⟩
    · exact hinv
    · have hstubeq : st2.stubEvents = st1.stubEvents := by
        rcases hst2 with rfl | ⟨w, rfl⟩ <;> rfl
      have hmain : amInv st1 ∧ i < st1.nextIdx := by
        rcases hst1 with ⟨hsome, rfl⟩ | ⟨hnone, rfl⟩
        · exact ⟨hinv, hinv.1 i hsome⟩
        · have hflag : decide (st.nextIdx ≤ i) = false := by
            have hmem : (i, decide (st.nextIdx ≤ i)) ∈ st2.stubEvents := by
              rw [hstubeq]
              exact List.mem_append_right _ (List.mem_singleton_self _)
            exact hstub _ hmem
          have hi : i < st.nextIdx := by
            have := of_decide_eq_false hflag
            omega
          obtain ⟨hb, hpw, hlt, hff, hnd⟩ := hinv
          refine ⟨⟨?_, hpw, hlt, hff, nodup_rset _ _ _ hnd⟩, hi⟩
          intro k hk
          rcases rlookup_isSome_rset st.data i k _ hk with rfl | hs
          · exact hi
          · exact hb k hs
      rcases hst2 with rfl | ⟨w, rfl⟩
      · exact hmain.1
      · obtain ⟨⟨hb1, hpw1, hlt1, hff1, hnd1⟩, hib⟩ := hmain
        refine ⟨?_, hpw1, hlt1, hff1, nodup_rset _ _ _ hnd1⟩
        intro k hk
        rcases rlookup_isSome_rset st1.data i k _ hk with rfl | hs
        · exact hib
        · exact hb1 k hs

lemma stepAM_nodup (st : AMState) (l : LogLine) (st2 : AMState)
    (h : stepAM st l = .ok st2) (hnd : (st.data.map Prod.fst).Nodup) :
    (st2.data.map Prod.fst).Nodup := by
  rcases stepAM_cases st l st2 h with rfl | ⟨vl, rfl⟩ | ⟨kind, keys, v, hnb⟩
  · exact hnd
  · exact bulkAppend_nodup vl st hnd
  · rcases notBulkAM_cases _ _ _ _ _ hnb with rfl | ⟨i, st1, hst1, hst2⟩
    · exact hnd
    · have hnd1 : (st1.data.map Prod.fst).Nodup := by
        rcases hst1 with ⟨_, rfl⟩ | ⟨_, rfl⟩
        · exact hnd
        · exact nodup_rset _ _ _ hnd
      rcases hst2 with rfl | ⟨w, rfl⟩
      · exact hnd1
      · exact nodup_rset _ _ _ hnd1

lemma replayAM_stub_mono (lines : List LogLine) :
    ∀ st st2, replayAM st lines = .ok st2 → ∀ e ∈ st.stubEvents, e ∈ st2.stubEvents := by
  induction lines with
  | nil =>
    intro st st2 h
    obtain rfl := Except.ok.inj h
    exact fun e he => he
  | cons l rest ih =>
    intro st st2 h
    simp only [replayAM] at h
    cases hstep : stepAM st l with
    | error e => rw [hstep] at h; exact absurd h (by simp)
    | ok st1 =>
      rw [hstep] at h
      exact fun e he => ih st1 st2 h e (stepAM_stub_mono st l st1 hstep e he)

lemma replayAM_inv (lines : List LogLine) :
    ∀ st st2, replayAM st lines = .ok st2 → amInv st →
      (∀ e ∈ st2.stubEvents, e.2 = false) → amInv st2 := by
  induction lines with
  | nil =>
    intro st st2 h hinv _
    obtain rfl := Except.ok.inj h
    exact hinv
  | cons l rest ih =>
    intro st st2 h hinv hstub
    simp only [replayAM] at h
    cases hstep : stepAM st l with
    | error e => rw [hstep] at h; exact absurd h (by simp)
    | ok st1 =>
      rw [hstep] at h
      have hstub1 : ∀ e ∈ st1.stubEvents, e.2 = false :=
        fun e he => hstub e (replayAM_stub_mono rest st1 st2 h e he)
      exact ih st1 st2 h (stepAM_inv st l st1 hstep hinv hstub1) hstub

lemma replayAM_nodup (lines : List LogLine) :
    ∀ st st2, replayAM st lines = .ok st2 →
      (st.data.map Prod.fst).Nodup → (st2.data.map Prod.fst).Nodup := by
  induction lines with
  | nil =>
    intro st st2 h hnd
    obtain rfl := Except.ok.inj h
    exact hnd
  | cons l rest ih =>
    intro st st2 h hnd
    simp only [replayAM] at h
    cases hstep : stepAM st l with
    | error e => rw [hstep] at h; exact absurd h (by simp)
    | ok st1 =>
      rw [hstep] at h
      exact ih st1 st2 h (stepAM_nodup st l st1 hstep hnd)

lemma initFromSnap_shape (snap : JVal) (m : RMap) (n : Int)
    (h : initFromSnap snap = .ok (m, n)) :
    ∃ elems : List JVal,
      m = elems.enum.filterMap (fun p => match p.2 with
        | JVal.null => none
        | r => some ((p.1 : Int), r)) ∧ n = (elems.length : Int) := by
  cases snap with
  | obj kvs =>
    simp only [initFromSnap] at h
    cases hv : objGetD kvs "v" (.obj []) with
    | obj vkvs =>
      simp only [hv] at h
      cases hit : pyIter (objGetD vkvs "requests" (.arr [])) with
      | error e => simp only [hit] at h; exact absurd h (by simp)
      | ok elems =>
        simp only [hit] at h
        obtain ⟨hm, hn⟩ := Prod.mk.injEq .. ▸ (Except.ok.inj h)
        exact ⟨elems, hm.symm, hn.symm⟩
    | null => simp only [hv] at h; exact absurd h (by simp)
    | bool b => simp only [hv] at h; exact absurd h (by simp)
    | num k => simp only [hv] at h; exact absurd h (by simp)
    | str s => simp only [hv] at h; exact absurd h (by simp)
    | arr l => simp only [hv] at h; exact absurd h (by simp)
  | null => simp [initFromSnap] at h
  | bool b => simp [initFromSnap] at h
  | num k => simp [initFromSnap] at h
  | str s => simp [initFromSnap] at h
  | arr l => simp [initFromSnap] at h

lemma initMap_inv (elems : List JVal) :
    (∀ k, (rlookup (elems.enum.filterMap fun p => match p.2 with
        | JVal.null => none | r => some ((p.1 : Int), r)) k).isSome →
      k < (elems.length : Int)) ∧
    ((elems.enum.filterMap fun p => match p.2 with
        | JVal.null => none | r => some ((p.1 : Int), r)).map Prod.fst).Nodup := by
  have hsub : (((elems.enum.filterMap fun p => match p.2 with
      | JVal.null => none | r => some ((p.1 : Int), r)).map Prod.fst).Sublist
      (elems.enum.map fun p => ((p.1 : Nat) : Int))) := by
    apply filterMap_fst_sublist
    intro a p hf
    obtain ⟨i, x⟩ := a
    cases x with
    | null => simp at hf
    | bool b => obtain rfl := Option.some.inj hf; rfl
    | num k => obtain rfl := Option.some.inj hf; rfl
    | str s => obtain rfl := Option.some.inj hf; rfl
    | arr l => obtain rfl := Option.some.inj hf; rfl
    | obj kvs => obtain rfl := Option.some.inj hf; rfl
  have hmap : elems.enum.map (fun p => ((p.1 : Nat) : Int))
      = (List.range elems.length).map (fun j : Nat => (j : Int)) := by
    rw [show (fun p : Nat × JVal => ((p.1 : Nat) : Int))
        = (fun j : Nat => (j : Int)) ∘ Prod.fst from rfl]
    rw [← List.map_map, List.enum_map_fst]
  constructor
  · intro k hk
    have hmem := (rlookup_isSome_iff _ k).mp hk
    have hmem2 := hsub.subset hmem
    rw [hmap] at hmem2
    obtain ⟨j, hj, rfl⟩ := List.mem_map.mp hmem2
    have := List.mem_range.mp hj
    exact_mod_cast this
  · refine List.Sublist.nodup hsub ?_
    rw [hmap]
    exact (List.nodup_range _).map (fun a b hab => Nat.cast_inj.mp hab)

/-- Peel `loadAM` into the snapshot-derived initial state and the replay. -/
lemma loadAM_shape (lines : List LogLine) (st : AMState)
    (h : loadAM lines = .ok st) :
    ∃ (snap : JVal) (rest : List LogLine) (elems : List JVal),
      lines = .val snap :: rest ∧
      replayAM ⟨elems.enum.filterMap (fun p => match p.2 with
          | JVal.null => none
          | r => some ((p.1 : Int), r)), (elems.length : Int), [], []⟩ rest
        = .ok st := by
  cases lines with
  | nil => simp [loadAM] at h
  | cons l0 rest =>
    cases l0 with
    | blank => simp [loadAM] at h
    | bad => simp [loadAM] at h
    | val snap =>
      simp only [loadAM] at h
      cases hin : initFromSnap snap with
      | error e => rw [hin, except_bind_error] at h; exact absurd h (by simp)
      | ok p =>
        rw [hin, except_bind_ok] at h
        obtain ⟨m, n⟩ := p
        obtain ⟨elems, hm, hn⟩ := initFromSnap_shape snap m n hin
        subst hm hn
        exact ⟨snap, rest, elems, rfl, h⟩

/-- C9 (amended): as long as no patch has stub-created an index at or
above the running `next_idx` (every ghost stub event is flagged `false`),
every bulk-append assignment goes to an index that did not yet exist
(never overwrites, including stubs) and the bulk-assigned indices are
strictly increasing — unique and ascending in log order. -/
theorem claim_C9 (lines : List LogLine) (st : AMState)
    (h : loadAM lines = .ok st) (hstub : ∀ e ∈ st.stubEvents, e.2 = false) :
    (∀ e ∈ st.bulkEvents, e.2 = false) ∧
      List.Pairwise (· < ·) (st.bulkEvents.map Prod.fst) := by
  obtain ⟨snap, rest, elems, rfl, hrep⟩ := loadAM_shape lines st h
  have hini := initMap_inv elems
  have hinv0 : amInv ⟨elems.enum.filterMap (fun p => match p.2 with
      | JVal.null => none
      | r => some ((p.1 : Int), r)), (elems.length : Int), [], []⟩ := by
    refine ⟨hini.1, ?_, ?_, ?_, hini.2⟩
    · simp
    · simp
    · simp
  have hfin := replayAM_inv rest _ st hrep hinv0 hstub
  exact ⟨hfin.2.2.2.1, hfin.2.1⟩

/-- Counterexample for C9 as stated: a kind-1 patch stub-creates index 0
(at `next_idx`, ghost flag `true`), and the following bulk-append assigns
index 0 **again** (ghost flag `true`: the key already existed), wiping the
stub — index assignment is neither unique nor fresh in the presence of
forward-referencing stubs. -/
theorem claim_C9_counterexample :
    (loadAM [.val (fixSnap []), .val (fixSet 0 "x" (.num 5)),
        .val (fixBulk [.obj [("a", .num 1)]])]).map
      (fun st => (st.stubEvents, st.bulkEvents, rlookup st.data 0))
      = .ok ([(0, true)], [(0, true)], some (.obj [("a", .num 1)])) := rfl

/-- Witness for C9 on a stub-free log. -/
theorem claim_C9_witness :
    loadAM [.val (fixSnap [.obj [("a", .num 1)]]), .val (fixBulk [.obj []])]
      = .ok ⟨[(0, .obj [("a", .num 1)]), (1, .obj [])], 2, [], [(1, false)]⟩ ∧
    (∀ e ∈ ([(1, false)] : List (Int × Bool)), e.2 = false) ∧
    List.Pairwise (· < ·) (([(1, false)] : List (Int × Bool)).map Prod.fst) := by
  have h := claim_C9 [.val (fixSnap [.obj [("a", .num 1)]]), .val (fixBulk [.obj []])]
    ⟨[(0, .obj [("a", .num 1)]), (1, .obj [])], 2, [], [(1, false)]⟩ rfl (by simp)
  exact ⟨rfl, h.1, h.2⟩

lemma loadAM_nodup (lines : List LogLine) (st : AMState)
    (h : loadAM lines = .ok st) : (st.data.map Prod.fst).Nodup := by
  obtain ⟨snap, rest, elems, rfl, hrep⟩ := loadAM_shape lines st h
  exact replayAM_nodup rest _ st hrep (initMap_inv elems).2

/-- C8 (amended): the list `load_requests` returns is strictly ordered by
request index, and it contains exactly the truthy request values of the
final map — indices that were `null` in the snapshot or whose request is
still empty (stub-created only) are **omitted**, not returned as empty
entities, so list positions do not preserve index addressing. -/
theorem claim_C8 (lines : List LogLine) (st : AMState)
    (h : loadAM lines = .ok st) :
    List.Pairwise (· < ·) ((amResultList st).map Prod.fst) ∧
    ∀ p ∈ amResultList st, jTruthy p.2 = true ∧ rlookup st.data p.1 = some p.2 := by
  have hnd : (st.data.map Prod.fst).Nodup := loadAM_nodup lines st h
  constructor
  · have hsorted : List.Pairwise (· ≤ ·) (sortedKeys st.data) :=
      List.sorted_insertionSort (· ≤ ·) (st.data.map Prod.fst)
    have hndk : (sortedKeys st.data).Nodup :=
      ((List.perm_insertionSort (· ≤ ·) _).nodup_iff).mpr hnd
    have hlt : List.Pairwise (· < ·) (sortedKeys st.data) :=
      (hsorted.and hndk).imp fun hab => lt_of_le_of_ne hab.1 hab.2
    have hsub : ((amResultList st).map Prod.fst).Sublist (sortedKeys st.data) := by
      unfold amResultList
      have hs := filterMap_fst_sublist (sortedKeys st.data)
        (fun i => match rlookup st.data i with
          | some r => if jTruthy r then some (i, r) else none
          | none => none) id ?_
      · simpa using hs
      · intro a p hf
        cases hr : rlookup st.data a with
        | none => simp only [hr] at hf; exact absurd hf (by simp)
        | some r =>
          simp only [hr] at hf
          by_cases ht : jTruthy r = true
          · rw [if_pos ht] at hf
            obtain rfl := Option.some.inj hf
            rfl
          · rw [if_neg ht] at hf; simp at hf
    exact hlt.sublist hsub
  · intro p hp
    unfold amResultList at hp
    obtain ⟨i, hi, hfi⟩ := List.mem_filterMap.mp hp
    cases hr : rlookup st.data i with
    | none => simp only [hr] at hfi; exact absurd hfi (by simp)
    | some r =>
      simp only [hr] at hfi
      by_cases ht : jTruthy r = true
      · rw [if_pos ht] at hfi
        obtain rfl := Option.some.inj hfi
        exact ⟨ht, hr⟩
      · rw [if_neg ht] at hfi; simp at hfi

/-- Counterexample for C8 as stated: a snapshot holding `[null, {…}]` has
two index slots, but the returned sequence holds a single element of
request index 1 — the never-populated index 0 is omitted entirely (there
is no empty entity for it), so position 0 of the result addresses index 1. -/
theorem claim_C8_counterexample :
    (loadRequestsAMList [.val (fixSnap [.null, .obj [("a", .num 1)]])]).map
        (List.map Prod.fst)
      = .ok [1] ∧ ([1] : List Int) ≠ [0, 1] :=
  ⟨rfl, by decide⟩

/-- Witness for C8 on a concrete replayed state. -/
theorem claim_C8_witness :
    List.Pairwise (· < ·)
      ((amResultList ⟨[(0, .obj [("a", .num 1)]), (1, .obj [])], 2, [], [(1, false)]⟩).map
        Prod.fst) ∧
    ∀ p ∈ amResultList ⟨[(0, .obj [("a", .num 1)]), (1, .obj [])], 2, [], [(1, false)]⟩,
      jTruthy p.2 = true ∧
        rlookup [(0, JVal.obj [("a", .num 1)]), (1, .obj [])] p.1 = some p.2 :=
  claim_C8 [.val (fixSnap [.obj [("a", .num 1)]]), .val (fixBulk [.obj []])] _ rfl

end RebootCount
